import Mathlib

/-
Verification development for the family-chart tree-calculation core.

Part 1 embeds the date utilities of src/utils/date.ts (parseDate,
createDateInfo and the validation helpers) as executable Lean functions.
JavaScript strings are Lean Strings, null/undefined inputs are Option.none,
and the anchored regular expressions of DATE_PATTERNS are implemented as
explicit character-list matchers.
-/

/-- DatePrecision mirrors the TypeScript union of src/utils/date.ts. -/
inductive DatePrecision where
  | year
  | month
  | day
  | unknown
deriving DecidableEq, Repr

/-- DateInfo mirrors the TypeScript interface of src/utils/date.ts; the
numeric fields are Option Nat (null when absent). -/
structure DateInfo where
  original : String
  precision : DatePrecision
  year : Option Nat
  month : Option Nat
  day : Option Nat
  isValid : Bool
deriving DecidableEq, Repr

/-- The whitespace class of the JavaScript regular-expression escape and of
String.prototype.trim (space, tab, line terminators and the Unicode space
code points). -/
def isSpaceJS (c : Char) : Bool :=
  c == ' ' || c == '\t' || c == '\n' || c == '\r' || c.val == 11 || c.val == 12 ||
  c.val == 0xa0 || c.val == 0x1680 || (0x2000 ≤ c.val && c.val ≤ 0x200a) ||
  c.val == 0x2028 || c.val == 0x2029 || c.val == 0x202f || c.val == 0x205f ||
  c.val == 0x3000 || c.val == 0xfeff

/-- The digit class of the regular expressions (ASCII 0-9). -/
def isDigitChar (c : Char) : Bool :=
  48 ≤ c.val && c.val ≤ 57

/-- String.prototype.trim on the character list. -/
def trimList (cs : List Char) : List Char :=
  ((cs.dropWhile isSpaceJS).reverse.dropWhile isSpaceJS).reverse

/-- String.prototype.trim. -/
def trimJS (s : String) : String :=
  ⟨trimList s.data⟩

/-- parseInt on a run of ASCII digits. -/
def parseNatDigits (ds : List Char) : Nat :=
  ds.foldl (fun n c => n * 10 + (c.toNat - 48)) 0

/-- One run of the scanner: the leading digit run of the characters after
optional leading whitespace, paired with what follows it. -/
def digitSpan (cs : List Char) : List Char × List Char :=
  ((cs.dropWhile isSpaceJS).takeWhile isDigitChar,
   (cs.dropWhile isSpaceJS).dropWhile isDigitChar)

/-- A digit run at the start of a segment (no whitespace skipping), paired
with what follows it. -/
def digitSpanAt (cs : List Char) : List Char × List Char :=
  (cs.takeWhile isDigitChar, cs.dropWhile isDigitChar)

/-- DATE_PATTERNS.yearOnly, the anchored pattern of four digits with optional
surrounding whitespace; returns the parsed year. -/
def matchYearOnly (cs : List Char) : Option Nat :=
  if (digitSpan cs).1.length = 4 && (digitSpan cs).2.all isSpaceJS then
    some (parseNatDigits (digitSpan cs).1)
  else none

/-- DATE_PATTERNS.yearMonth, the two alternatives YYYY-M and M/YYYY with one
or two month digits; returns (year, month). -/
def matchYearMonth (cs : List Char) : Option (Nat × Nat) :=
  match (digitSpan cs).2 with
  | '-' :: r2 =>
    if (digitSpan cs).1.length = 4 &&
       ((digitSpanAt r2).1.length = 1 || (digitSpanAt r2).1.length = 2) &&
       (digitSpanAt r2).2.all isSpaceJS then
      some (parseNatDigits (digitSpan cs).1, parseNatDigits (digitSpanAt r2).1)
    else none
  | '/' :: r2 =>
    if ((digitSpan cs).1.length = 1 || (digitSpan cs).1.length = 2) &&
       (digitSpanAt r2).1.length = 4 && (digitSpanAt r2).2.all isSpaceJS then
      some (parseNatDigits (digitSpanAt r2).1, parseNatDigits (digitSpan cs).1)
    else none
  | _ => none

/-- DATE_PATTERNS.isoDate, YYYY-M-D; returns (year, month, day). -/
def matchISODate (cs : List Char) : Option (Nat × Nat × Nat) :=
  match (digitSpan cs).2 with
  | '-' :: r2 =>
    match (digitSpanAt r2).2 with
    | '-' :: r4 =>
      if (digitSpan cs).1.length = 4 &&
         ((digitSpanAt r2).1.length = 1 || (digitSpanAt r2).1.length = 2) &&
         ((digitSpanAt r4).1.length = 1 || (digitSpanAt r4).1.length = 2) &&
         (digitSpanAt r4).2.all isSpaceJS then
        some (parseNatDigits (digitSpan cs).1, parseNatDigits (digitSpanAt r2).1,
          parseNatDigits (digitSpanAt r4).1)
      else none
    | _ => none
  | _ => none

/-- DATE_PATTERNS.usDate, M/D/YYYY; returns (month, day, year) in capture
order. -/
def matchUSDate (cs : List Char) : Option (Nat × Nat × Nat) :=
  match (digitSpan cs).2 with
  | '/' :: r2 =>
    match (digitSpanAt r2).2 with
    | '/' :: r4 =>
      if ((digitSpan cs).1.length = 1 || (digitSpan cs).1.length = 2) &&
         ((digitSpanAt r2).1.length = 1 || (digitSpanAt r2).1.length = 2) &&
         (digitSpanAt r4).1.length = 4 && (digitSpanAt r4).2.all isSpaceJS then
        some (parseNatDigits (digitSpan cs).1, parseNatDigits (digitSpanAt r2).1,
          parseNatDigits (digitSpanAt r4).1)
      else none
    | _ => none
  | _ => none

/-- isValidYear of src/utils/date.ts. -/
def isValidYear (year : Nat) : Bool :=
  decide (1 ≤ year) && decide (year ≤ 9999)

/-- isValidMonth of src/utils/date.ts. -/
def isValidMonth (month : Nat) : Bool :=
  decide (1 ≤ month) && decide (month ≤ 12)

/-- isLeapYear of src/utils/date.ts. -/
def isLeapYear (year : Nat) : Bool :=
  (decide (year % 4 = 0) && decide (year % 100 ≠ 0)) || decide (year % 400 = 0)

/-- The daysInMonth table of isValidDay. -/
def daysInMonthArr : List Nat :=
  [31, 28, 31, 30, 31, 30, 31, 31, 30, 31, 30, 31]

/-- isValidDay of src/utils/date.ts; an out-of-range month index reads past
the table, which in JavaScript compares day against undefined (false), so the
Lean model defaults to 0 there. -/
def isValidDay (day month year : Nat) : Bool :=
  if day < 1 then false
  else if month = 2 && isLeapYear year then decide (day ≤ 29)
  else decide (day ≤ daysInMonthArr.getD (month - 1) 0)

/-- The initial all-null result object built at the top of parseDate. -/
def blankDateInfo (orig : String) : DateInfo :=
  { original := orig, precision := DatePrecision.unknown,
    year := none, month := none, day := none, isValid := false }

/-- The yearOnly attempt of parseDate: a match whose year passes isValidYear
returns a year-precision result, anything else falls through. -/
def tryYearOnlyP (orig : String) (cs : List Char) : Option DateInfo :=
  match matchYearOnly cs with
  | some y =>
    if isValidYear y then
      some { (blankDateInfo orig) with
             year := some y, precision := DatePrecision.year, isValid := true }
    else none
  | none => none

/-- The yearMonth attempt of parseDate. -/
def tryYearMonthP (orig : String) (cs : List Char) : Option DateInfo :=
  match matchYearMonth cs with
  | some (y, m) =>
    if isValidYear y && isValidMonth m then
      some { (blankDateInfo orig) with
             year := some y, month := some m,
             precision := DatePrecision.month, isValid := true }
    else none
  | none => none

/-- The isoDate attempt of parseDate. -/
def tryISODateP (orig : String) (cs : List Char) : Option DateInfo :=
  match matchISODate cs with
  | some (y, m, d) =>
    if isValidYear y && isValidMonth m && isValidDay d m y then
      some { (blankDateInfo orig) with
             year := some y, month := some m, day := some d,
             precision := DatePrecision.day, isValid := true }
    else none
  | none => none

/-- The usDate attempt of parseDate. -/
def tryUSDateP (orig : String) (cs : List Char) : Option DateInfo :=
  match matchUSDate cs with
  | some (m, d, y) =>
    if isValidYear y && isValidMonth m && isValidDay d m y then
      some { (blankDateInfo orig) with
             year := some y, month := some m, day := some d,
             precision := DatePrecision.day, isValid := true }
    else none
  | none => none

/-- The four pattern attempts of parseDate on the trimmed character list,
in source order and with the source's fall-through on validation failure: a
pattern that matches but fails its range checks falls through to the next
pattern, and the all-null result is returned when every attempt fails. -/
def parseDateCore (orig : String) (cs : List Char) : DateInfo :=
  match tryYearOnlyP orig cs with
  | some r => r
  | none =>
    match tryYearMonthP orig cs with
    | some r => r
    | none =>
      match tryISODateP orig cs with
      | some r => r
      | none =>
        match tryUSDateP orig cs with
        | some r => r
        | none => blankDateInfo orig

/-- parseDate of src/utils/date.ts; null and undefined inputs are
Option.none. -/
def parseDate (dateStr : Option String) : DateInfo :=
  match dateStr with
  | none => blankDateInfo ""
  | some s =>
    if s = "" then blankDateInfo s
    else
      let t := trimJS s
      if t = "" then blankDateInfo s
      else parseDateCore s t.data

/-- The ASCII character of a decimal digit. -/
def decDigit (n : Nat) : Char :=
  Char.ofNat (48 + n % 10)

/-- Decimal digit list of a natural number, fuel-indexed so that it reduces
structurally; natDigits supplies sufficient fuel. -/
def natDigitsAux : Nat → Nat → List Char
  | 0, _ => []
  | fuel + 1, n =>
    if n < 10 then [decDigit n]
    else natDigitsAux fuel (n / 10) ++ [decDigit (n % 10)]

/-- Decimal digit list of a natural number (the character data of the
JavaScript String(n) conversion). -/
def natDigits (n : Nat) : List Char :=
  natDigitsAux (n + 1) n

/-- The JavaScript String(n) conversion for natural numbers. -/
def natToString (n : Nat) : String :=
  ⟨natDigits n⟩

/-- String(n).padStart(2, zero) of createDateInfo: a one-digit number gains a
leading zero, longer strings are unchanged. -/
def padTwo (n : Nat) : String :=
  if n < 10 then ⟨'0' :: natDigits n⟩ else natToString n

/-- createDateInfo of src/utils/date.ts: builds a DateInfo from components,
mirroring the source's nesting (an absent or invalid month gives year
precision; an absent or invalid day leaves month precision). -/
def createDateInfo (year : Nat) (month day : Option Nat) : DateInfo :=
  if isValidYear year then
    match month with
    | some m =>
      if isValidMonth m then
        match day with
        | some d =>
          if isValidDay d m year then
            { original := natToString year ++ "-" ++ padTwo m ++ "-" ++ padTwo d,
              precision := DatePrecision.day, year := some year,
              month := some m, day := some d, isValid := true }
          else
            { original := natToString year ++ "-" ++ padTwo m,
              precision := DatePrecision.month, year := some year,
              month := some m, day := none, isValid := true }
        | none =>
          { original := natToString year ++ "-" ++ padTwo m,
            precision := DatePrecision.month, year := some year,
            month := some m, day := none, isValid := true }
      else
        { original := natToString year, precision := DatePrecision.year,
          year := some year, month := none, day := none, isValid := true }
    | none =>
      { original := natToString year, precision := DatePrecision.year,
        year := some year, month := none, day := none, isValid := true }
  else blankDateInfo ""

/-- The accepted input shapes of parseDate, stated over the trimmed
character data: year-only, year-month, ISO year-month-day or US
month/day/year, with year between 1 and 9999, month between 1 and 12 and a
day valid for that month and year. -/
def ValidDateInput (s : Option String) : Prop :=
  ∃ str, s = some str ∧
    ((∃ y, matchYearOnly (trimJS str).data = some y ∧ 1 ≤ y ∧ y ≤ 9999) ∨
     (∃ y m, matchYearMonth (trimJS str).data = some (y, m) ∧
        1 ≤ y ∧ y ≤ 9999 ∧ 1 ≤ m ∧ m ≤ 12) ∨
     (∃ y m d, matchISODate (trimJS str).data = some (y, m, d) ∧
        1 ≤ y ∧ y ≤ 9999 ∧ 1 ≤ m ∧ m ≤ 12 ∧ isValidDay d m y = true) ∨
     (∃ m d y, matchUSDate (trimJS str).data = some (m, d, y) ∧
        1 ≤ y ∧ y ≤ 9999 ∧ 1 ≤ m ∧ m ≤ 12 ∧ isValidDay d m y = true))

/-
Part 2: the relational data model (docs/data-format.md), the traversal of the
Hierarchy Builder, the Child/Spouse Sorter, the Visibility Checker and the
Delay Scheduler. The tree-calculation and store sources are not shipped under
src/ (only their benchmarks and documentation are), so those operations are
modelled from the specification; the Visibility Checker and the Delay
Scheduler follow the reference implementations inlined in the performance
benchmarks.
-/

/-- The rels object of a person record: ordered id lists of parents, spouses
and children (docs/data-format.md). -/
structure Rels where
  parents : List String
  spouses : List String
  children : List String
deriving DecidableEq, Repr

/-- A person record of the relational store, reduced to the fields the
traversal consults: the unique id and the relationship lists. -/
structure Person where
  id : String
  rels : Rels
deriving DecidableEq, Repr

/-- getDatum: id lookup in the store. -/
def storeLookup (store : List Person) (pid : String) : Option Person :=
  store.find? (fun p => p.id == pid)

/-- Whether an id is present in the store. -/
def storeHas (store : List Person) (pid : String) : Bool :=
  (storeLookup store pid).isSome

/-- All relationship ids a person lists, in parents, spouses, children
order. -/
def relativesOf (p : Person) : List String :=
  p.rels.parents ++ p.rels.spouses ++ p.rels.children

/-- A pending visit of the traversal: the id to visit, its depth, its side,
whether it was attached as a paired spouse, and the anchor flag. -/
structure QItem where
  id : String
  depth : Nat
  is_ancestry : Bool
  isSpouse : Bool
  main : Bool
deriving DecidableEq, Repr

/-- A computed tree node: person id, depth, side, paired-spouse flag and the
anchor (main) flag. -/
structure TNode where
  id : String
  depth : Nat
  is_ancestry : Bool
  isSpouse : Bool
  main : Bool
deriving DecidableEq, Repr

/-- Modelled from the spec: the expansion step of calculateTree
(src/layout/calculate-tree is not under src/). Per section 4.2: an ancestry
node enqueues its parents one level up and attaches its spouses at the same
depth without further upward recursion; the anchor and every non-ancestry
node enqueue their children one level down and attach their spouses at the
same depth; the anchor additionally enqueues its parents as ancestry. -/
def expandRels (p : Person) (it : QItem) : List QItem :=
  if it.is_ancestry then
    if it.isSpouse then []
    else
      p.rels.parents.map (fun r => ⟨r, it.depth + 1, true, false, false⟩) ++
      p.rels.spouses.map (fun r => ⟨r, it.depth, true, true, false⟩)
  else
    p.rels.children.map (fun r => ⟨r, it.depth + 1, false, false, false⟩) ++
    (if it.isSpouse then []
     else p.rels.spouses.map (fun r => ⟨r, it.depth, false, true, false⟩)) ++
    (if it.main then p.rels.parents.map (fun r => ⟨r, it.depth + 1, true, false, false⟩)
     else [])

/-- Modelled from the spec: the enqueue step of calculateTree. Each id enters
the visit queue at most once (section 4.2 step 4), and a relationship id
absent from the store is skipped rather than raised (section 4.2 failure
policy). -/
def enqueueNew (store : List Person) : List String → List QItem → List QItem
  | _, [] => []
  | seen, it :: rest =>
    if storeHas store it.id && !(seen.contains it.id) then
      it :: enqueueNew store (it.id :: seen) rest
    else enqueueNew store seen rest

/-- Modelled from the spec: the work loop of calculateTree, fuel-indexed so
that it reduces structurally; the fuel store.length + 1 always suffices
because each id enters the queue at most once. -/
def buildTree (store : List Person) : Nat → List String → List QItem → List TNode → Option (List TNode)
  | 0, _, _, _ => none
  | fuel + 1, seen, queue, out =>
    match queue with
    | [] => some out
    | it :: rest =>
      match storeLookup store it.id with
      | none => buildTree store fuel seen rest out
      | some p =>
        let newItems := enqueueNew store seen (expandRels p it)
        buildTree store fuel (newItems.map QItem.id ++ seen) (rest ++ newItems)
          (out ++ [⟨it.id, it.depth, it.is_ancestry, it.isSpouse, it.main⟩])

/-- The failure modes of calculateTree; FuelExhausted is the marker for a run
that would outlive its fuel, proven unreachable. -/
inductive TreeError where
  | NotFound
  | FuelExhausted
deriving DecidableEq, Repr

/-- Modelled from the spec: calculateTree anchored at a present id. The
anchor is visited at depth 0 on the progeny side with the main flag
(section 4.2 step 1). -/
def calculateTreeAt (store : List Person) (main_id : String) : Except TreeError (List TNode) :=
  if storeHas store main_id then
    match buildTree store (store.length + 1) [main_id] [⟨main_id, 0, false, false, true⟩] [] with
    | some out => Except.ok out
    | none => Except.error TreeError.FuelExhausted
  else Except.error TreeError.NotFound

/-- Modelled from the spec: calculateTree(store, {main_id}). A missing
main_id or a main_id absent from the store fails with NotFound (sections 4.2
and 7). -/
def calculateTree (store : List Person) (main_id : Option String) : Except TreeError (List TNode) :=
  match main_id with
  | none => Except.error TreeError.NotFound
  | some x => calculateTreeAt store x

/-- Distinct ids present in the store. -/
def storeIds (store : List Person) : List String :=
  (store.map (fun p => p.id)).dedup

/-- Number of store ids not yet seen by the traversal; the termination
measure of buildTree together with the queue length. -/
def unseenCount (store : List Person) (seen : List String) : Nat :=
  ((storeIds store).filter (fun i => !(seen.contains i))).length

/-- One directed relationship edge of the dataset: a lists b among its
parents, spouses or children. -/
def RelEdge (store : List Person) (a b : String) : Prop :=
  ∃ p, p ∈ store ∧ p.id = a ∧ b ∈ relativesOf p

/-- Reachability along parent/spouse/child edges from the anchor. -/
def ReachableFrom (store : List Person) (root b : String) : Prop :=
  Relation.ReflTransGen (RelEdge store) root b

/-- Modelled from the spec: validate's dangling-reference findings
(section 4.1; the store source is not under src/). Each finding pairs the
offending person with the relationship id absent from the store. -/
def validateDanglingRefs (store : List Person) : List (String × String) :=
  store.flatMap (fun p =>
    ((relativesOf p).filter (fun r => !(storeHas store r))).map (fun r => (p.id, r)))

/-- The loop invariant of buildTree: every queued id is reachable from the
root and present in the store, emitted and queued ids are reachable,
pairwise distinct and recorded as seen, and the main flag is carried by
exactly one pending-or-emitted node, whose id is the root. -/
def TreeInv (store : List Person) (root : String) (seen : List String)
    (queue : List QItem) (out : List TNode) : Prop :=
  (∀ it ∈ queue, ReachableFrom store root it.id ∧ storeHas store it.id = true) ∧
  (∀ n ∈ out, ReachableFrom store root n.id) ∧
  (out.map TNode.id ++ queue.map QItem.id).Nodup ∧
  (∀ i ∈ out.map TNode.id ++ queue.map QItem.id, i ∈ seen) ∧
  (out.filter (fun n => n.main)).map TNode.id ++
    (queue.filter (fun it => it.main)).map QItem.id = [root]

/-- isAllRelativeDisplayed, following the current implementation inlined in
tests/performance/store-lookups.bench.ts lines 255-263: collect the person's
parents, spouses and children, drop empty ids, and require each to be in the
displayed id set. -/
def isAllRelativeDisplayed (rels : Rels) (displayedIds : List String) : Bool :=
  ((rels.parents ++ rels.spouses ++ rels.children).filter (fun v => !(v == ""))).all
    (fun relId => displayedIds.contains relId)

/-- ancestryLevels of calculateDelay, as inlined in
tests/performance/handlers.bench.ts line 184: the maximum depth over the
ancestry-side nodes of the tree (0 for the others). -/
def ancestryLevels (tree : List TNode) : Nat :=
  tree.foldl (fun acc d => max acc (if d.is_ancestry then d.depth else 0)) 0

/-- calculateDelay, following the reference formula inlined in
tests/performance/handlers.bench.ts lines 184-195. The numeric literal 0.4
of the source is the exact rational 2/5 here. -/
def calculateDelay (tree : List TNode) (node : TNode) (transitionTime : ℚ) : ℚ :=
  let delayLevel := transitionTime * (2 / 5)
  let base := (node.depth : ℚ) * delayLevel
  if (node.depth ≠ 0 ∨ node.isSpouse = true) ∧ node.is_ancestry = false then
    base + (ancestryLevels tree : ℚ) * delayLevel +
      (if node.isSpouse then delayLevel else 0) + (node.depth : ℚ) * delayLevel
  else base

/-- First index of an id in a spouse list; the list length when absent. -/
def idxOf (x : String) : List String → Nat
  | [] => 0
  | a :: r => if a == x then 0 else idxOf x r + 1

/-- The "other parent" of a child relative to a known parent: the first entry
of the child's parents list that differs from the parent's id
(tests/performance/handlers.bench.ts line 123). -/
def otherParentId (parentId : String) (child : Person) : Option String :=
  child.rels.parents.find? (fun pid => !(pid == parentId))

/-- Modelled from the spec: the grouping key of sortChildrenWithSpouses
(section 4.3; src/layout/handlers is not under src/). A child keyed by the
position of its other parent within parent.rels.spouses; a child whose other
parent is not a declared spouse comes after all spouse groups, and a child
with no second parent on record comes last. -/
def childGroupKey (parent : Person) (child : Person) : Nat :=
  match otherParentId parent.id child with
  | some op => idxOf op parent.rels.spouses
  | none => parent.rels.spouses.length + 1

/-- Concatenation of the key-k groups of a list for k below the bound, each
group in input order. -/
def groupsByKey {α : Type} (key : α → Nat) (bound : Nat) (l : List α) : List α :=
  (List.range bound).flatMap (fun k => l.filter (fun c => key c == k))

/-- Modelled from the spec: sortChildrenWithSpouses (section 4.3). Children
are grouped by their other parent, groups ordered by that other parent's
position within parent.rels.spouses, the no-second-parent group last, and
input order preserved within every group (a stable sort by childGroupKey). -/
def sortChildrenWithSpouses (children : List Person) (parent : Person) : List Person :=
  groupsByKey (childGroupKey parent) (parent.rels.spouses.length + 2) children

/-- A person record as loaded or exported, covering both shapes: the legacy
father/mother fields and the current parents array (docs/data-format.md). -/
structure RawRecord where
  id : String
  father : Option String
  mother : Option String
  parents : List String
  spouses : List String
  children : List String
deriving DecidableEq, Repr

/-- A store-internal record after normalization: the current parents-array
shape plus the recorded original shape. -/
structure StoredRecord where
  id : String
  parents : List String
  spouses : List String
  children : List String
  legacyFormat : Bool
deriving DecidableEq, Repr

/-- Modelled from the spec: normalizeToCurrent (section 4.1 and
docs/data-format.md; the store source is not under src/). father and mother
become the parents array in that order, and the original shape is recorded
for symmetric export. -/
def normalizeToCurrent (r : RawRecord) : StoredRecord :=
  if r.father.isSome || r.mother.isSome then
    { id := r.id, parents := r.father.toList ++ r.mother.toList,
      spouses := r.spouses, children := r.children, legacyFormat := true }
  else
    { id := r.id, parents := r.parents,
      spouses := r.spouses, children := r.children, legacyFormat := false }

/-- Modelled from the spec: exportData on one record (docs/data-format.md
Export Behavior). A record loaded in the legacy shape is exported back to
father/mother (first and second parent), one loaded in the current shape
keeps its parents array. -/
def exportDatum (s : StoredRecord) : RawRecord :=
  if s.legacyFormat then
    { id := s.id, father := s.parents.get? 0, mother := s.parents.get? 1,
      parents := [], spouses := s.spouses, children := s.children }
  else
    { id := s.id, father := none, mother := none,
      parents := s.parents, spouses := s.spouses, children := s.children }

/-
Part 3: concrete datasets used by the example-level statements below.
-/

/-- The worked example of the spec (section 8): couple A and B with child C,
couple C and D with child E. -/
def exStore : List Person :=
  [⟨"A", ⟨[], ["B"], ["C"]⟩⟩,
   ⟨"B", ⟨[], ["A"], ["C"]⟩⟩,
   ⟨"C", ⟨["A", "B"], ["D"], ["E"]⟩⟩,
   ⟨"D", ⟨[], ["C"], ["E"]⟩⟩,
   ⟨"E", ⟨["C", "D"], [], []⟩⟩]

/-- The tree computed from exStore anchored at C. -/
def exNodes : List TNode :=
  [⟨"C", 0, false, false, true⟩,
   ⟨"E", 1, false, false, false⟩,
   ⟨"D", 0, false, true, false⟩,
   ⟨"A", 1, true, false, false⟩,
   ⟨"B", 1, true, false, false⟩]

/-- The cyclic dataset of the spec's termination property: A lists B as
parent and B lists A as parent. -/
def cycStore : List Person :=
  [⟨"A", ⟨["B"], [], []⟩⟩, ⟨"B", ⟨["A"], [], []⟩⟩]

/-- A dataset where the anchor C has a sibling S: couple A and B with
children C and S. -/
def sibStore : List Person :=
  [⟨"A", ⟨[], ["B"], ["C", "S"]⟩⟩,
   ⟨"B", ⟨[], ["A"], ["C", "S"]⟩⟩,
   ⟨"C", ⟨["A", "B"], [], []⟩⟩,
   ⟨"S", ⟨["A", "B"], [], []⟩⟩]

/-- The tree computed from sibStore anchored at C: the sibling S is not
visited, because children are only expanded from non-ancestry nodes. -/
def sibNodes : List TNode :=
  [⟨"C", 0, false, false, true⟩,
   ⟨"A", 1, true, false, false⟩,
   ⟨"B", 1, true, false, false⟩]

/-- A one-node ancestry tree used by the delay witnesses. -/
def wTreeDelay : List TNode :=
  [⟨"a", 1, true, false, false⟩]

/-- A progeny-side spouse node at depth 2, used by the delay witnesses. -/
def wNodeDelay : TNode :=
  ⟨"x", 2, false, true, false⟩

/-- An ancestry node at depth 0. -/
def cexNodeA : TNode :=
  ⟨"a", 0, true, false, false⟩

/-- An ancestry node at depth 1. -/
def cexNodeB : TNode :=
  ⟨"b", 1, true, false, false⟩

/-- The two-node ancestry tree holding cexNodeA and cexNodeB. -/
def cexTreeDelay : List TNode :=
  [cexNodeA, cexNodeB]

/-
Part 4: theorems. First the Delay Scheduler (C3, C8), the Visibility
Checker (C4) and the legacy-format round trip (C7).
-/

/-- C7: normalizing a legacy record carrying father = 2 and mother = 3 into
the parents-array shape and exporting reproduces the original father/mother
shape exactly, and a current-format record round-trips through load and
export unchanged. -/
theorem claimC7 (r : RawRecord) :
    (r.father = some "2" → r.mother = some "3" → r.parents = [] →
      exportDatum (normalizeToCurrent r) = r) ∧
    (r.father = none → r.mother = none → exportDatum (normalizeToCurrent r) = r) := by
  obtain ⟨i, f, m, p, s, c⟩ := r
  constructor
  · intro hf hm hp
    subst hf; subst hm; subst hp
    simp [normalizeToCurrent, exportDatum]
  · intro hf hm
    subst hf; subst hm
    simp [normalizeToCurrent, exportDatum]

theorem claimC7_witness :
    exportDatum (normalizeToCurrent ⟨"1", some "2", some "3", [], ["4"], ["5"]⟩) =
      (⟨"1", some "2", some "3", [], ["4"], ["5"]⟩ : RawRecord) ∧
    exportDatum (normalizeToCurrent ⟨"9", none, none, ["2", "3"], [], []⟩) =
      (⟨"9", none, none, ["2", "3"], [], []⟩ : RawRecord) :=
  ⟨(claimC7 ⟨"1", some "2", some "3", [], ["4"], ["5"]⟩).1 rfl rfl rfl,
   (claimC7 ⟨"9", none, none, ["2", "3"], [], []⟩).2 rfl rfl⟩

/-- C3: calculateDelay returns depth times the per-level fraction, and adds
the ancestry-span, spouse and second-depth terms exactly when the node is on
the progeny side and is not the anchor; anchor-hood is characterized by
depth 0 without a paired spouse on the progeny side. -/
theorem claimC3 (tree : List TNode) (node : TNode) (t : ℚ)
    (hmain : node.main = true ↔ node.depth = 0 ∧ node.isSpouse = false ∧ node.is_ancestry = false) :
    calculateDelay tree node t =
      (node.depth : ℚ) * (t * (2 / 5)) +
      (if node.is_ancestry = false ∧ node.main = false then
        (ancestryLevels tree : ℚ) * (t * (2 / 5)) +
          (if node.isSpouse then t * (2 / 5) else 0) + (node.depth : ℚ) * (t * (2 / 5))
      else 0) := by
  obtain ⟨i, d, anc, sp, mn⟩ := node
  simp only [calculateDelay] at *
  cases anc <;> cases sp <;> cases mn <;> by_cases hd : d = 0 <;>
    simp_all [add_assoc]

theorem claimC3_witness :
    (wNodeDelay.main = true ↔
      wNodeDelay.depth = 0 ∧ wNodeDelay.isSpouse = false ∧ wNodeDelay.is_ancestry = false) ∧
    calculateDelay wTreeDelay wNodeDelay 1000 =
      (wNodeDelay.depth : ℚ) * (1000 * (2 / 5)) +
      (if wNodeDelay.is_ancestry = false ∧ wNodeDelay.main = false then
        (ancestryLevels wTreeDelay : ℚ) * (1000 * (2 / 5)) +
          (if wNodeDelay.isSpouse then 1000 * (2 / 5) else 0) +
          (wNodeDelay.depth : ℚ) * (1000 * (2 / 5))
      else 0) :=
  ⟨by decide, claimC3 wTreeDelay wNodeDelay 1000 (by decide)⟩

/-- C8 (amended): for a fixed tree and a fixed nonnegative
transitionDurationMs, calculateDelay is monotonically non-decreasing in
depth over nodes agreeing on side and spouse-presence. -/
theorem claimC8 (tree : List TNode) (n1 n2 : TNode) (t : ℚ)
    (ht : 0 ≤ t) (hanc : n1.is_ancestry = n2.is_ancestry) (hsp : n1.isSpouse = n2.isSpouse)
    (hd : n1.depth ≤ n2.depth) :
    calculateDelay tree n1 t ≤ calculateDelay tree n2 t := by
  obtain ⟨i1, d1, anc1, sp1, mn1⟩ := n1
  obtain ⟨i2, d2, anc2, sp2, mn2⟩ := n2
  simp only at hanc hsp hd
  subst hanc; subst hsp
  have hL : (0 : ℚ) ≤ t * (2 / 5) := by positivity
  have hA : (0 : ℚ) ≤ (ancestryLevels tree : ℚ) := Nat.cast_nonneg _
  have hdq : (d1 : ℚ) ≤ (d2 : ℚ) := by exact_mod_cast hd
  simp only [calculateDelay]
  cases anc1 <;> cases sp1 <;> by_cases h01 : d1 = 0 <;> by_cases h02 : d2 = 0 <;>
    simp [h01, h02] <;>
    first
      | positivity
      | (exfalso; omega)
      | nlinarith [mul_le_mul_of_nonneg_right hdq hL,
          mul_nonneg (Nat.cast_nonneg (α := ℚ) d2) hL, mul_nonneg hA hL]

/-- C8 counterexample: with a negative transitionDurationMs, two ancestry
nodes of equal spouse-presence and depths 0 and 1 violate monotonicity, so
the claim fails without a nonnegativity assumption. -/
theorem claimC8_counterexample :
    cexNodeA.is_ancestry = cexNodeB.is_ancestry ∧ cexNodeA.isSpouse = cexNodeB.isSpouse ∧
    cexNodeA.depth ≤ cexNodeB.depth ∧
    ¬ calculateDelay cexTreeDelay cexNodeA (-1000) ≤ calculateDelay cexTreeDelay cexNodeB (-1000) := by
  refine ⟨rfl, rfl, by norm_num [cexNodeA, cexNodeB], ?_⟩
  norm_num [calculateDelay, cexNodeA, cexNodeB, cexTreeDelay, ancestryLevels]

theorem claimC8_witness :
    (0 : ℚ) ≤ 1000 ∧
    calculateDelay wTreeDelay cexNodeA 1000 ≤ calculateDelay wTreeDelay cexNodeB 1000 :=
  ⟨by decide, claimC8 wTreeDelay cexNodeA cexNodeB 1000 (by decide) rfl rfl (by decide)⟩

/-- The contract of isAllRelativeDisplayed: true exactly when every non-empty
relative id is among the displayed ids. -/
theorem displayed_iff (rels : Rels) (displayedIds : List String) :
    isAllRelativeDisplayed rels displayedIds = true ↔
      ∀ r ∈ rels.parents ++ rels.spouses ++ rels.children, r ≠ "" → r ∈ displayedIds := by
  simp [isAllRelativeDisplayed, List.all_eq_true, List.mem_filter, List.elem_iff]
  constructor
  · rintro ⟨h1, h2, h3⟩ r hr hne
    rcases hr with h | h | h
    · rcases h1 r h with h | h
      · exact absurd h hne
      · exact h
    · rcases h2 r h with h | h
      · exact absurd h hne
      · exact h
    · rcases h3 r h with h | h
      · exact absurd h hne
      · exact h
  · intro h
    refine ⟨fun x hx => ?_, fun x hx => ?_, fun x hx => ?_⟩
    · by_cases hx0 : x = ""
      · exact Or.inl hx0
      · exact Or.inr (h x (Or.inl hx) hx0)
    · by_cases hx0 : x = ""
      · exact Or.inl hx0
      · exact Or.inr (h x (Or.inr (Or.inl hx)) hx0)
    · by_cases hx0 : x = ""
      · exact Or.inl hx0
      · exact Or.inr (h x (Or.inr (Or.inr hx)) hx0)

/-- C4 (amended): isAllRelativeDisplayed is true iff every non-empty id
among the node's parents, spouses and children is displayed; over the id set
produced by calculateTree this holds for a tree node exactly when all of its
non-empty relative ids occur in the tree; and removing any listed non-empty
relative id from the displayed set makes the check false for that node. -/
theorem claimC4 :
    (∀ (rels : Rels) (displayedIds : List String),
      isAllRelativeDisplayed rels displayedIds = true ↔
        ∀ r ∈ rels.parents ++ rels.spouses ++ rels.children, r ≠ "" → r ∈ displayedIds) ∧
    (∀ (store : List Person) (mid : Option String) (nodes : List TNode),
      calculateTree store mid = Except.ok nodes →
      ∀ n ∈ nodes, ∀ p, storeLookup store n.id = some p →
        (isAllRelativeDisplayed p.rels (nodes.map TNode.id) = true ↔
          ∀ r ∈ relativesOf p, r ≠ "" → r ∈ nodes.map TNode.id)) ∧
    (∀ (rels : Rels) (displayedIds : List String) (r : String),
      r ∈ rels.parents ++ rels.spouses ++ rels.children → r ≠ "" → r ∉ displayedIds →
      isAllRelativeDisplayed rels displayedIds = false) := by
  refine ⟨displayed_iff, ?_, ?_⟩
  · intro store mid nodes _ n _ p _
    exact displayed_iff p.rels (nodes.map TNode.id)
  · intro rels displayedIds r hr hne hnotin
    by_contra h
    have h' : isAllRelativeDisplayed rels displayedIds = true := by
      cases hb : isAllRelativeDisplayed rels displayedIds
      · exact absurd hb h
      · rfl
    exact hnotin ((displayed_iff rels displayedIds).mp h' r hr hne)

theorem claimC4_witness :
    ("B" ∈ ([] : List String) ++ ["B"] ++ []) ∧
    isAllRelativeDisplayed ⟨[], ["B"], []⟩ ["C"] = false :=
  ⟨by decide, claimC4.2.2 ⟨[], ["B"], []⟩ ["C"] "B" (by decide) (by decide) (by decide)⟩

/-- C4 counterexample: anchored at C in a dataset where C has sibling S, the
tree contains node A yet isAllRelativeDisplayed is false for A at the full
produced id set, because A's child S is not visited by the traversal. -/
theorem claimC4_counterexample :
    calculateTree sibStore (some "C") = Except.ok sibNodes ∧
    (⟨"A", 1, true, false, false⟩ : TNode) ∈ sibNodes ∧
    storeLookup sibStore "A" = some ⟨"A", ⟨[], ["B"], ["C", "S"]⟩⟩ ∧
    isAllRelativeDisplayed (⟨[], ["B"], ["C", "S"]⟩ : Rels) (sibNodes.map TNode.id) = false :=
  ⟨by rfl, by decide, by decide, by decide⟩

theorem idxOf_le (x : String) (l : List String) : idxOf x l ≤ l.length := by
  induction l with
  | nil => simp [idxOf]
  | cons a r ih =>
    simp only [idxOf, List.length_cons]
    split
    · omega
    · omega

theorem childGroupKey_lt (parent child : Person) :
    childGroupKey parent child < parent.rels.spouses.length + 2 := by
  unfold childGroupKey
  cases h : otherParentId parent.id child with
  | none => simp only [h]; omega
  | some op =>
    simp only [h]
    have := idxOf_le op parent.rels.spouses
    omega

theorem range_count_eq (m : Nat) : ∀ n,
    ((List.range n).filter (fun k => m == k)).length = if m < n then 1 else 0 := by
  intro n
  induction n with
  | zero => simp
  | succ n ih =>
    rw [List.range_succ, List.filter_append, List.length_append, ih]
    by_cases h : m = n
    · subst h
      simp
    · have : (m == n) = false := by simp [h]
      simp only [List.filter_cons, this, List.filter_nil]
      by_cases h2 : m < n
      · have : m < n + 1 := by omega
        simp [h2, this]
      · have : ¬ m < n + 1 := by omega
        simp [h2, this]

theorem groupsByKey_count {α : Type} [DecidableEq α] (key : α → Nat) (l : List α) (a : α) :
    ∀ bound, List.count a (groupsByKey key bound l) =
      (if key a < bound then 1 else 0) * List.count a l := by
  intro bound
  induction bound with
  | zero => simp [groupsByKey]
  | succ n ih =>
    unfold groupsByKey at *
    rw [List.range_succ, List.flatMap_append, List.count_append, ih]
    simp only [List.flatMap_cons, List.flatMap_nil, List.append_nil]
    by_cases h : key a = n
    · have hb : ((fun c => key c == n) a) = true := by simp [h]
      rw [List.count_filter (p := fun c => key c == n) (a := a) (l := l) hb]
      have h1 : ¬ key a < n := by omega
      have h2 : key a < n + 1 := by omega
      simp [h1, h2]
    · have hne : a ∉ (l.filter (fun c => key c == n)) := by
        intro hmem
        have := (List.mem_filter.mp hmem).2
        simp at this
        exact h this
      rw [List.count_eq_zero.mpr hne]
      have : (key a < n + 1) = (key a < n) := by
        apply propext
        omega
      simp [this]

theorem groupsByKey_perm {α : Type} [DecidableEq α] (key : α → Nat) (bound : Nat) (l : List α)
    (h : ∀ a ∈ l, key a < bound) : List.Perm (groupsByKey key bound l) l := by
  rw [List.perm_iff_count]
  intro a
  rw [groupsByKey_count key l a bound]
  by_cases hm : a ∈ l
  · simp [h a hm]
  · rw [List.count_eq_zero.mpr hm]
    simp

theorem pairwise_of_forall_pairs {α : Type} {R : α → α → Prop} :
    ∀ l : List α, (∀ a ∈ l, ∀ b ∈ l, R a b) → List.Pairwise R l := by
  intro l
  induction l with
  | nil => intro _; exact List.Pairwise.nil
  | cons x r ih =>
    intro h
    refine List.Pairwise.cons ?_ (ih ?_)
    · intro b hb
      exact h x (by simp) b (by simp [hb])
    · intro a ha b hb
      exact h a (by simp [ha]) b (by simp [hb])

theorem groupsByKey_pairwise {α : Type} (key : α → Nat) (bound : Nat) (l : List α) :
    List.Pairwise (fun a b => key a ≤ key b) (groupsByKey key bound l) := by
  unfold groupsByKey
  have main : ∀ ks : List Nat, List.Pairwise (· < ·) ks →
      List.Pairwise (fun a b => key a ≤ key b)
        (ks.flatMap (fun k => l.filter (fun c => key c == k))) := by
    intro ks
    induction ks with
    | nil => intro _; exact List.Pairwise.nil
    | cons k ks ih =>
      intro hp
      rw [List.pairwise_cons] at hp
      simp only [List.flatMap_cons]
      rw [List.pairwise_append]
      refine ⟨?_, ih hp.2, ?_⟩
      · apply pairwise_of_forall_pairs
        intro a ha b hb
        have ha' := (List.mem_filter.mp ha).2
        have hb' := (List.mem_filter.mp hb).2
        simp at ha' hb'
        omega
      · intro a ha b hb
        have ha' := (List.mem_filter.mp ha).2
        rcases List.mem_flatMap.mp hb with ⟨k', hk', hb'⟩
        have hb'' := (List.mem_filter.mp hb').2
        simp at ha' hb''
        have := hp.1 k' hk'
        omega
  exact main _ (List.pairwise_lt_range bound)

theorem groupsByKey_filter {α : Type} (key : α → Nat) (bound : Nat) (l : List α)
    (h : ∀ a ∈ l, key a < bound) (j : Nat) :
    (groupsByKey key bound l).filter (fun c => key c == j) =
      l.filter (fun c => key c == j) := by
  unfold groupsByKey
  have main : ∀ ks : List Nat, ks.Nodup →
      (ks.flatMap (fun k => l.filter (fun c => key c == k))).filter (fun c => key c == j) =
        if j ∈ ks then l.filter (fun c => key c == j) else [] := by
    intro ks
    induction ks with
    | nil => intro _; simp
    | cons k ks ih =>
      intro hnd
      rw [List.nodup_cons] at hnd
      simp only [List.flatMap_cons]
      rw [List.filter_append, ih hnd.2]
      by_cases hkj : k = j
      · subst hkj
        have h1 : (l.filter (fun c => key c == k)).filter (fun c => key c == k) =
            l.filter (fun c => key c == k) := by
          apply List.filter_eq_self.mpr
          intro a ha
          exact (List.mem_filter.mp ha).2
        have h2 : k ∉ ks := hnd.1
        simp [h1, h2]
      · have h1 : (l.filter (fun c => key c == k)).filter (fun c => key c == j) = [] := by
          apply List.filter_eq_nil_iff.mpr
          intro a ha
          have := (List.mem_filter.mp ha).2
          simp at this ⊢
          omega
        have hjk : ¬ j = k := fun e => hkj e.symm
        by_cases hj : j ∈ ks <;> simp [h1, hjk, hj]
  rw [main _ (List.nodup_range bound)]
  by_cases hj : j < bound
  · simp [List.mem_range, hj]
  · have h2 : l.filter (fun c => key c == j) = [] := by
      apply List.filter_eq_nil_iff.mpr
      intro a ha
      have := h a ha
      simp
      omega
    simp [List.mem_range, hj, h2]

/-- C6: sortChildrenWithSpouses returns a permutation of the children,
ordered by the other-parent grouping key (groups in spouse-declaration order
with the no-second-parent group last), and it is stable: each key class keeps
its input order. -/
theorem claimC6 (children : List Person) (parent : Person) :
    List.Perm (sortChildrenWithSpouses children parent) children ∧
    List.Pairwise (fun a b => childGroupKey parent a ≤ childGroupKey parent b)
      (sortChildrenWithSpouses children parent) ∧
    ∀ k, (sortChildrenWithSpouses children parent).filter (fun c => childGroupKey parent c == k) =
      children.filter (fun c => childGroupKey parent c == k) := by
  refine ⟨?_, ?_, ?_⟩
  · exact groupsByKey_perm _ _ _ (fun a _ => childGroupKey_lt parent a)
  · exact groupsByKey_pairwise _ _ _
  · exact groupsByKey_filter _ _ _ (fun a _ => childGroupKey_lt parent a)

theorem storeHas_iff (store : List Person) (i : String) :
    storeHas store i = true ↔ i ∈ storeIds store := by
  simp [storeHas, storeLookup, storeIds, List.find?_isSome, List.mem_dedup, List.mem_map]

theorem mem_enqueueNew (store : List Person) :
    ∀ (items : List QItem) (seen : List String) (x : QItem),
      x ∈ enqueueNew store seen items →
      x ∈ items ∧ storeHas store x.id = true ∧ seen.contains x.id = false := by
  intro items
  induction items with
  | nil => intro seen x hx; simp [enqueueNew] at hx
  | cons it rest ih =>
    intro seen x hx
    rw [enqueueNew] at hx
    split at hx
    · next hcond =>
      rcases List.mem_cons.mp hx with he | hm
      · subst he
        have h1 := (Bool.and_eq_true _ _).mp hcond
        refine ⟨by simp, h1.1, ?_⟩
        have := h1.2
        simp only [Bool.not_eq_true'] at this
        exact this
      · have := ih (it.id :: seen) x hm
        refine ⟨by simp [this.1], this.2.1, ?_⟩
        have h2 := this.2.2
        cases hc : List.contains seen x.id
        · rfl
        · exfalso
          have : List.contains (it.id :: seen) x.id = true := by
            simp only [List.contains_cons]
            rw [hc]
            simp
          rw [this] at h2
          exact Bool.true_eq_false.mp h2
    · have := ih seen x hx
      exact ⟨by simp [this.1], this.2.1, this.2.2⟩

theorem nodup_enqueueNew (store : List Person) :
    ∀ (items : List QItem) (seen : List String),
      ((enqueueNew store seen items).map QItem.id).Nodup := by
  intro items
  induction items with
  | nil => intro seen; simp [enqueueNew]
  | cons it rest ih =>
    intro seen
    rw [enqueueNew]
    split
    · next hcond =>
      simp only [List.map_cons, List.nodup_cons]
      refine ⟨?_, ih (it.id :: seen)⟩
      intro hmem
      rcases List.mem_map.mp hmem with ⟨x, hx, hid⟩
      have h2 := (mem_enqueueNew store rest (it.id :: seen) x hx).2.2
      rw [hid] at h2
      simp only [List.contains_cons] at h2
      simp at h2
    · exact ih seen

theorem seen_swap_count (store : List Person) :
    ∀ (a b : List String), (∀ x, x ∈ a ↔ x ∈ b) →
      unseenCount store a = unseenCount store b := by
  intro a b hab
  unfold unseenCount
  congr 1
  apply List.filter_congr
  intro x _
  cases hca : List.contains a x <;> cases hcb : List.contains b x <;> try rfl
  · exfalso
    have hxb : x ∈ b := List.elem_iff.mp hcb
    have : List.contains a x = true := List.elem_iff.mpr ((hab x).mpr hxb)
    rw [hca] at this
    exact Bool.false_eq_true.mp this
  · exfalso
    have hxa : x ∈ a := List.elem_iff.mp hca
    have : List.contains b x = true := List.elem_iff.mpr ((hab x).mp hxa)
    rw [hcb] at this
    exact Bool.false_eq_true.mp this

theorem unseen_insert (store : List Person) (i : String) (seen : List String)
    (hin : i ∈ storeIds store) (hns : List.contains seen i = false) :
    unseenCount store (i :: seen) + 1 = unseenCount store seen := by
  unfold unseenCount
  have hnd : (storeIds store).Nodup := List.nodup_dedup _
  revert hnd hin
  generalize storeIds store = l
  induction l with
  | nil => intro h _; simp at h
  | cons a r ih =>
    intro hin hnd
    rw [List.nodup_cons] at hnd
    by_cases hai : a = i
    · subst hai
      have hfa1 : List.contains (a :: seen) a = true := by simp [List.contains_cons]
      have hfa2 : (!List.contains seen a) = true := by rw [hns]; rfl
      simp only [List.filter_cons, hfa1, hfa2]
      simp only [Bool.not_true, if_false, if_true]
      have : List.filter (fun x => !List.contains (a :: seen) x) r =
          List.filter (fun x => !List.contains seen x) r := by
        apply List.filter_congr
        intro x hx
        have hxa : x ≠ a := fun e => hnd.1 (e ▸ hx)
        simp only [List.contains_cons]
        have : (x == a) = false := by simp [hxa]
        rw [this]
        simp
      rw [this]
      simp
    · have h1 : List.contains (i :: seen) a = List.contains seen a := by
        simp only [List.contains_cons]
        have : (a == i) = false := by simp [hai]
        rw [this]
        simp
      have hin' : i ∈ r := by
        rcases List.mem_cons.mp hin with h | h
        · exact absurd h.symm hai
        · exact h
      simp only [List.filter_cons, h1]
      cases hca : List.contains seen a
      · simp only [Bool.not_false, if_true, List.length_cons]
        have := ih hin' hnd.2
        omega
      · simp only [Bool.not_true, if_false]
        exact ih hin' hnd.2

theorem enqueueNew_count (store : List Person) :
    ∀ (items : List QItem) (seen : List String),
      unseenCount store ((enqueueNew store seen items).map QItem.id ++ seen) +
        (enqueueNew store seen items).length = unseenCount store seen := by
  intro items
  induction items with
  | nil => intro seen; simp [enqueueNew]
  | cons it rest ih =>
    intro seen
    rw [enqueueNew]
    split
    · next hcond =>
      have h1 := (Bool.and_eq_true _ _).mp hcond
      have hin : it.id ∈ storeIds store := (storeHas_iff store it.id).mp h1.1
      have hns : List.contains seen it.id = false := by
        have := h1.2
        simp only [Bool.not_eq_true'] at this
        exact this
      simp only [List.map_cons, List.length_cons, List.cons_append]
      have hswap : unseenCount store
          (it.id :: ((enqueueNew store (it.id :: seen) rest).map QItem.id ++ seen)) =
          unseenCount store ((enqueueNew store (it.id :: seen) rest).map QItem.id ++ (it.id :: seen)) := by
        apply seen_swap_count
        intro x
        simp only [List.mem_cons, List.mem_append]
        tauto
      rw [hswap]
      have := ih (it.id :: seen)
      have hins := unseen_insert store it.id seen hin hns
      omega
    · exact ih seen

theorem buildTree_isSome (store : List Person) :
    ∀ (fuel : Nat) (seen : List String) (queue : List QItem) (out : List TNode),
      queue.length + unseenCount store seen < fuel →
      (buildTree store fuel seen queue out).isSome = true := by
  intro fuel
  induction fuel with
  | zero => intro seen queue out h; omega
  | succ n ih =>
    intro seen queue out h
    cases queue with
    | nil => simp [buildTree]
    | cons it rest =>
      simp only [buildTree]
      cases hl : storeLookup store it.id with
      | none =>
        simp only [hl]
        apply ih
        simp only [List.length_cons] at h
        omega
      | some p =>
        simp only [hl]
        apply ih
        have hc := enqueueNew_count store (expandRels p it) seen
        simp only [List.length_cons] at h
        simp only [List.length_append]
        omega

theorem expandRels_mem (p : Person) (it : QItem) :
    ∀ x ∈ expandRels p it, x.id ∈ relativesOf p ∧ x.main = false := by
  intro x hx
  unfold expandRels at hx
  unfold relativesOf
  cases hanc : it.is_ancestry <;> cases hsp : it.isSpouse <;> cases hm : it.main <;>
    simp [hanc, hsp, hm] at hx
  all_goals
    first
      | (rcases hx with ⟨a, ha, rfl⟩ | ⟨a, ha, rfl⟩ | ⟨a, ha, rfl⟩ <;> simp [ha])
      | (rcases hx with ⟨a, ha, rfl⟩ | ⟨a, ha, rfl⟩ <;> simp [ha])
      | (rcases hx with ⟨a, ha, rfl⟩ <;> simp [ha])

theorem lookup_mem_id (store : List Person) (i : String) (p : Person)
    (h : storeLookup store i = some p) : p ∈ store ∧ p.id = i := by
  unfold storeLookup at h
  refine ⟨List.mem_of_find?_eq_some h, ?_⟩
  have := List.find?_some h
  simpa using this

theorem buildTree_spec (store : List Person) (root : String) :
    ∀ (fuel : Nat) (seen : List String) (queue : List QItem) (out : List TNode)
      (res : List TNode),
      buildTree store fuel seen queue out = some res →
      TreeInv store root seen queue out →
      (∀ n ∈ res, ReachableFrom store root n.id) ∧ (res.map TNode.id).Nodup ∧
        (res.filter (fun n => n.main)).map TNode.id = [root] := by
  intro fuel
  induction fuel with
  | zero =>
    intro seen queue out res hres _
    simp [buildTree] at hres
  | succ n ih =>
    intro seen queue out res hres hinv
    obtain ⟨inv1, inv2, inv3, inv4, inv5⟩ := hinv
    cases queue with
    | nil =>
      simp only [buildTree, Option.some.injEq] at hres
      subst hres
      refine ⟨inv2, ?_, ?_⟩
      · simpa using inv3
      · simpa using inv5
    | cons it rest =>
      simp only [buildTree] at hres
      cases hl : storeLookup store it.id with
      | none =>
        exfalso
        have := (inv1 it (by simp)).2
        unfold storeHas at this
        rw [hl] at this
        simp at this
      | some p =>
        rw [hl] at hres
        obtain ⟨hpmem, hpid⟩ := lookup_mem_id store it.id p hl
        have hres2 : buildTree store n
            ((enqueueNew store seen (expandRels p it)).map QItem.id ++ seen)
            (rest ++ enqueueNew store seen (expandRels p it))
            (out ++ [⟨it.id, it.depth, it.is_ancestry, it.isSpouse, it.main⟩]) = some res := hres
        have hreach_it : ReachableFrom store root it.id := (inv1 it (by simp)).1
        -- properties of the enqueued items
        set E := enqueueNew store seen (expandRels p it) with hE
        have hEprops : ∀ x ∈ E, x.id ∈ relativesOf p ∧ x.main = false ∧
            storeHas store x.id = true ∧ seen.contains x.id = false := by
          intro x hx
          have h1 := mem_enqueueNew store (expandRels p it) seen x hx
          have h2 := expandRels_mem p it x h1.1
          exact ⟨h2.1, h2.2, h1.2.1, h1.2.2⟩
        have hEreach : ∀ x ∈ E, ReachableFrom store root x.id := by
          intro x hx
          exact Relation.ReflTransGen.tail hreach_it
            ⟨p, hpmem, hpid, (hEprops x hx).1⟩
        -- the new invariant
        apply ih _ _ _ res hres2
        refine ⟨?_, ?_, ?_, ?_, ?_⟩
        · intro x hx
          rcases List.mem_append.mp hx with h | h
          · exact inv1 x (by simp [h])
          · exact ⟨hEreach x h, (hEprops x h).2.2.1⟩
        · intro m hm
          rcases List.mem_append.mp hm with h | h
          · exact inv2 m h
          · rcases List.mem_singleton.mp h with rfl
            exact hreach_it
        · -- Nodup of (out ++ [node]).map ++ (rest ++ E).map
          have hre : ((out ++ [(⟨it.id, it.depth, it.is_ancestry, it.isSpouse, it.main⟩ : TNode)]).map TNode.id ++
              (rest ++ E).map QItem.id) =
              (out.map TNode.id ++ it.id :: rest.map QItem.id) ++ E.map QItem.id := by
            simp
          rw [hre, List.nodup_append]
          refine ⟨inv3, nodup_enqueueNew store (expandRels p it) seen, ?_⟩
          intro a ha hb
          have haseen : a ∈ seen := inv4 a (by simpa using ha)
          rcases List.mem_map.mp hb with ⟨x, hx, hbid⟩
          have hxns := (hEprops x hx).2.2.2
          rw [← hbid] at haseen
          have hcontra : seen.contains x.id = true := List.elem_iff.mpr haseen
          rw [hxns] at hcontra
          exact Bool.false_eq_true.mp hcontra
        · intro i hi
          have hsplit : (out ++ [(⟨it.id, it.depth, it.is_ancestry, it.isSpouse, it.main⟩ : TNode)]).map TNode.id ++
              (rest ++ E).map QItem.id =
              (out.map TNode.id ++ it.id :: rest.map QItem.id) ++ E.map QItem.id := by
            simp
          rw [hsplit] at hi
          rcases List.mem_append.mp hi with h | h
          · exact List.mem_append_right _ (inv4 i h)
          · exact List.mem_append_left _ h
        · -- main bookkeeping
          have hEnomain : E.filter (fun x => x.main) = [] := by
            apply List.filter_eq_nil_iff.mpr
            intro x hx
            simp [(hEprops x hx).2.1]
          rw [List.filter_cons] at inv5
          cases hm : it.main
          · rw [hm] at inv5
            simp only [Bool.false_eq_true, if_false] at inv5
            rw [List.filter_append, List.filter_append, hEnomain, List.append_nil,
              List.map_append]
            have hsing : List.filter (fun n => n.main)
                [(⟨it.id, it.depth, it.is_ancestry, it.isSpouse, false⟩ : TNode)] = [] := by
              simp
            rw [hsing]
            simpa using inv5
          · rw [hm] at inv5
            simp only [if_true] at inv5
            rw [List.filter_append, List.filter_append, hEnomain, List.append_nil,
              List.map_append]
            have hsing : List.filter (fun n => n.main)
                [(⟨it.id, it.depth, it.is_ancestry, it.isSpouse, true⟩ : TNode)] =
                [⟨it.id, it.depth, it.is_ancestry, it.isSpouse, true⟩] := by
              simp
            rw [hsing]
            simpa using inv5

theorem unseenCount_nil (store : List Person) :
    unseenCount store [] = (storeIds store).length := by
  unfold unseenCount
  have : List.filter (fun i => !List.contains ([] : List String) i) (storeIds store) =
      storeIds store := by
    apply List.filter_eq_self.mpr
    intro a _
    rfl
  rw [this]

theorem initial_bound (store : List Person) (x : String) (h : storeHas store x = true) :
    1 + unseenCount store [x] < store.length + 1 := by
  have hx : x ∈ storeIds store := (storeHas_iff store x).mp h
  have h1 : unseenCount store [x] + 1 = unseenCount store [] :=
    unseen_insert store x [] hx rfl
  have h2 : unseenCount store [] = (storeIds store).length := unseenCount_nil store
  have h3 : (storeIds store).length ≤ store.length := by
    have := List.Sublist.length_le (List.dedup_sublist (store.map Person.id))
    simpa using this
  have h4 : 0 < (storeIds store).length := List.length_pos.mpr (List.ne_nil_of_mem hx)
  omega

theorem calculateTreeAt_ok (store : List Person) (x : String) (h : storeHas store x = true) :
    ∃ out, calculateTreeAt store x = Except.ok out ∧
      buildTree store (store.length + 1) [x] [⟨x, 0, false, false, true⟩] [] = some out := by
  have hb := buildTree_isSome store (store.length + 1) [x] [⟨x, 0, false, false, true⟩] []
    (by simpa using initial_bound store x h)
  cases hres : buildTree store (store.length + 1) [x] [⟨x, 0, false, false, true⟩] [] with
  | none => rw [hres] at hb; simp at hb
  | some out =>
    refine ⟨out, ?_, rfl⟩
    unfold calculateTreeAt
    rw [h]
    simp only [if_true]
    rw [hres]

/-- C2: calculateTree terminates on every dataset, cyclic ones included: the
fuel store.length + 1 never runs out because each id enters the queue at
most once, and on the two-person parent cycle the traversal stops after
emitting both nodes. -/
theorem claimC2 :
    (∀ (store : List Person) (mid : Option String),
      calculateTree store mid ≠ Except.error TreeError.FuelExhausted) ∧
    calculateTree cycStore (some "A") =
      Except.ok [⟨"A", 0, false, false, true⟩, ⟨"B", 1, true, false, false⟩] := by
  constructor
  · intro store mid
    cases mid with
    | none => simp [calculateTree]
    | some x =>
      simp only [calculateTree]
      cases h : storeHas store x with
      | false =>
        unfold calculateTreeAt
        rw [h]
        simp
      | true =>
        obtain ⟨out, hout, _⟩ := calculateTreeAt_ok store x h
        rw [hout]
        simp
  · rfl

/-- C1: anchored at any id X present in the store, calculateTree returns a
node list with exactly one main node carrying id X, every node reachable
from X along listed parent/spouse/child edges, and no duplicated id. -/
theorem claimC1 (store : List Person) (x : String) (h : storeHas store x = true) :
    ∃ nodes, calculateTree store (some x) = Except.ok nodes ∧
      (nodes.filter (fun n => n.main)).map TNode.id = [x] ∧
      (∀ n ∈ nodes, ReachableFrom store x n.id) ∧
      (nodes.map TNode.id).Nodup := by
  obtain ⟨out, hout, hbuild⟩ := calculateTreeAt_ok store x h
  have hinv : TreeInv store x [x] [⟨x, 0, false, false, true⟩] [] := by
    refine ⟨?_, ?_, ?_, ?_, ?_⟩
    · intro it hit
      rcases List.mem_singleton.mp hit with rfl
      exact ⟨Relation.ReflTransGen.refl, h⟩
    · intro m hm
      simp at hm
    · simp
    · intro i hi
      simpa using hi
    · simp
  have hspec := buildTree_spec store x (store.length + 1) [x]
    [⟨x, 0, false, false, true⟩] [] out hbuild hinv
  exact ⟨out, hout, hspec.2.2, hspec.1, hspec.2.1⟩

theorem claimC1_witness :
    storeHas exStore "C" = true ∧
    ∃ nodes, calculateTree exStore (some "C") = Except.ok nodes ∧
      (nodes.filter (fun n => n.main)).map TNode.id = ["C"] ∧
      (∀ n ∈ nodes, ReachableFrom exStore "C" n.id) ∧
      (nodes.map TNode.id).Nodup :=
  ⟨by decide, claimC1 exStore "C" (by decide)⟩

/-- C5: calculateTree fails, always with NotFound, exactly when main_id is
missing or absent from the store; with a present main_id it succeeds even on
dirty data (dangling relationship ids are skipped, not raised), and a
dangling relationship id is exactly what validate's dangling-reference
findings surface. -/
theorem claimC5 (store : List Person) (mid : Option String) :
    (calculateTree store mid = Except.error TreeError.NotFound ↔
      mid = none ∨ ∃ x, mid = some x ∧ storeHas store x = false) ∧
    (∀ e, calculateTree store mid = Except.error e → e = TreeError.NotFound) ∧
    (∀ x, mid = some x → storeHas store x = true →
      ∃ nodes, calculateTree store mid = Except.ok nodes) ∧
    (validateDanglingRefs store = [] ↔
      ∀ p ∈ store, ∀ r ∈ relativesOf p, storeHas store r = true) := by
  refine ⟨?_, ?_, ?_, ?_⟩
  · cases mid with
    | none => simp [calculateTree]
    | some x =>
      simp only [calculateTree]
      cases h : storeHas store x with
      | false =>
        unfold calculateTreeAt
        rw [h]
        simp [h]
      | true =>
        obtain ⟨out, hout, _⟩ := calculateTreeAt_ok store x h
        rw [hout]
        constructor
        · intro hc
          exact absurd hc (by simp)
        · rintro (hc | ⟨y, hy, hyf⟩)
          · exact absurd hc (by simp)
          · rcases Option.some.injEq x y ▸ hy with rfl
            rw [h] at hyf
            exact absurd hyf (by simp)
  · intro e he
    cases mid with
    | none =>
      simp only [calculateTree] at he
      exact (Except.error.injEq _ _ ▸ he).symm
    | some x =>
      simp only [calculateTree] at he
      cases h : storeHas store x with
      | false =>
        unfold calculateTreeAt at he
        rw [h] at he
        rw [if_neg (by simp)] at he
        exact (Except.error.injEq _ _ ▸ he).symm
      | true =>
        obtain ⟨out, hout, _⟩ := calculateTreeAt_ok store x h
        rw [hout] at he
        exact absurd he (by simp)
  · rintro x rfl h
    obtain ⟨out, hout, _⟩ := calculateTreeAt_ok store x h
    exact ⟨out, hout⟩
  · unfold validateDanglingRefs
    rw [List.flatMap_eq_nil_iff]
    constructor
    · intro hall p hp r hr
      have := hall p hp
      rw [List.map_eq_nil_iff, List.filter_eq_nil_iff] at this
      have h2 := this r hr
      simp at h2
      exact h2
    · intro hall p hp
      rw [List.map_eq_nil_iff, List.filter_eq_nil_iff]
      intro r hr
      simp [hall p hp r hr]

theorem claimC5_witness :
    calculateTree exStore (some "Z") = Except.error TreeError.NotFound ∧
    (∃ nodes, calculateTree exStore (some "C") = Except.ok nodes) :=
  ⟨(claimC5 exStore (some "Z")).1.mpr (Or.inr ⟨"Z", rfl, by decide⟩),
   (claimC5 exStore (some "C")).2.2.1 "C" rfl (by decide)⟩

theorem isValidYear_iff (y : Nat) : isValidYear y = true ↔ 1 ≤ y ∧ y ≤ 9999 := by
  simp [isValidYear]

theorem isValidMonth_iff (m : Nat) : isValidMonth m = true ↔ 1 ≤ m ∧ m ≤ 12 := by
  simp [isValidMonth]

theorem tryYearOnlyP_some (orig : String) (cs : List Char) (r : DateInfo)
    (h : tryYearOnlyP orig cs = some r) :
    r.isValid = true ∧ ∃ y, matchYearOnly cs = some y ∧ isValidYear y = true := by
  unfold tryYearOnlyP at h
  cases hm : matchYearOnly cs with
  | none => rw [hm] at h; simp at h
  | some y =>
    rw [hm] at h
    simp at h
    obtain ⟨hv, hr⟩ := h
    subst hr
    exact ⟨rfl, y, rfl, hv⟩

theorem tryYearOnlyP_none (orig : String) (cs : List Char)
    (h : tryYearOnlyP orig cs = none) :
    ∀ y, matchYearOnly cs = some y → isValidYear y = false := by
  intro y hy
  unfold tryYearOnlyP at h
  rw [hy] at h
  simp at h
  simpa using h

theorem tryYearMonthP_some (orig : String) (cs : List Char) (r : DateInfo)
    (h : tryYearMonthP orig cs = some r) :
    r.isValid = true ∧ ∃ y m, matchYearMonth cs = some (y, m) ∧
      isValidYear y = true ∧ isValidMonth m = true := by
  unfold tryYearMonthP at h
  cases hm : matchYearMonth cs with
  | none => rw [hm] at h; simp at h
  | some p =>
    obtain ⟨y, m⟩ := p
    rw [hm] at h
    simp at h
    obtain ⟨⟨hv1, hv2⟩, hr⟩ := h
    subst hr
    exact ⟨rfl, y, m, rfl, hv1, hv2⟩

theorem tryYearMonthP_none (orig : String) (cs : List Char)
    (h : tryYearMonthP orig cs = none) :
    ∀ y m, matchYearMonth cs = some (y, m) →
      (isValidYear y && isValidMonth m) = false := by
  intro y m hy
  unfold tryYearMonthP at h
  rw [hy] at h
  simp at h
  simpa using h

theorem tryISODateP_some (orig : String) (cs : List Char) (r : DateInfo)
    (h : tryISODateP orig cs = some r) :
    r.isValid = true ∧ ∃ y m d, matchISODate cs = some (y, m, d) ∧
      isValidYear y = true ∧ isValidMonth m = true ∧ isValidDay d m y = true := by
  unfold tryISODateP at h
  cases hm : matchISODate cs with
  | none => rw [hm] at h; simp at h
  | some p =>
    obtain ⟨y, m, d⟩ := p
    rw [hm] at h
    simp at h
    obtain ⟨⟨⟨hv1, hv2⟩, hv3⟩, hr⟩ := h
    subst hr
    exact ⟨rfl, y, m, d, rfl, hv1, hv2, hv3⟩

theorem tryISODateP_none (orig : String) (cs : List Char)
    (h : tryISODateP orig cs = none) :
    ∀ y m d, matchISODate cs = some (y, m, d) →
      (isValidYear y && isValidMonth m && isValidDay d m y) = false := by
  intro y m d hy
  unfold tryISODateP at h
  rw [hy] at h
  simp at h
  simpa using h

theorem tryUSDateP_some (orig : String) (cs : List Char) (r : DateInfo)
    (h : tryUSDateP orig cs = some r) :
    r.isValid = true ∧ ∃ m d y, matchUSDate cs = some (m, d, y) ∧
      isValidYear y = true ∧ isValidMonth m = true ∧ isValidDay d m y = true := by
  unfold tryUSDateP at h
  cases hm : matchUSDate cs with
  | none => rw [hm] at h; simp at h
  | some p =>
    obtain ⟨m, d, y⟩ := p
    rw [hm] at h
    simp at h
    obtain ⟨⟨⟨hv1, hv2⟩, hv3⟩, hr⟩ := h
    subst hr
    exact ⟨rfl, m, d, y, rfl, hv1, hv2, hv3⟩

theorem tryUSDateP_none (orig : String) (cs : List Char)
    (h : tryUSDateP orig cs = none) :
    ∀ m d y, matchUSDate cs = some (m, d, y) →
      (isValidYear y && isValidMonth m && isValidDay d m y) = false := by
  intro m d y hy
  unfold tryUSDateP at h
  rw [hy] at h
  simp at h
  simpa using h

theorem parseDateCore_isValid (orig : String) (cs : List Char) :
    (parseDateCore orig cs).isValid = true ↔
      ((∃ y, matchYearOnly cs = some y ∧ isValidYear y = true) ∨
       (∃ y m, matchYearMonth cs = some (y, m) ∧ isValidYear y = true ∧ isValidMonth m = true) ∨
       (∃ y m d, matchISODate cs = some (y, m, d) ∧
          isValidYear y = true ∧ isValidMonth m = true ∧ isValidDay d m y = true) ∨
       (∃ m d y, matchUSDate cs = some (m, d, y) ∧
          isValidYear y = true ∧ isValidMonth m = true ∧ isValidDay d m y = true)) := by
  unfold parseDateCore
  cases h1 : tryYearOnlyP orig cs with
  | some r =>
    have ⟨hv, hy⟩ := tryYearOnlyP_some orig cs r h1
    simp only [hv, true_iff]
    exact Or.inl hy
  | none =>
    cases h2 : tryYearMonthP orig cs with
    | some r =>
      have ⟨hv, hy⟩ := tryYearMonthP_some orig cs r h2
      simp only [hv, true_iff]
      exact Or.inr (Or.inl hy)
    | none =>
      cases h3 : tryISODateP orig cs with
      | some r =>
        have ⟨hv, hy⟩ := tryISODateP_some orig cs r h3
        simp only [hv, true_iff]
        exact Or.inr (Or.inr (Or.inl hy))
      | none =>
        cases h4 : tryUSDateP orig cs with
        | some r =>
          have ⟨hv, hy⟩ := tryUSDateP_some orig cs r h4
          simp only [hv, true_iff]
          exact Or.inr (Or.inr (Or.inr hy))
        | none =>
          simp only [blankDateInfo]
          constructor
          · intro hfalse
            exact absurd hfalse (by simp)
          · rintro (⟨y, hy, hv⟩ | ⟨y, m, hy, hv1, hv2⟩ |
              ⟨y, m, d, hy, hv1, hv2, hv3⟩ | ⟨m, d, y, hy, hv1, hv2, hv3⟩)
            · have := tryYearOnlyP_none orig cs h1 y hy
              rw [hv] at this
              exact absurd this (by simp)
            · have := tryYearMonthP_none orig cs h2 y m hy
              rw [hv1, hv2] at this
              exact absurd this (by simp)
            · have := tryISODateP_none orig cs h3 y m d hy
              rw [hv1, hv2, hv3] at this
              exact absurd this (by simp)
            · have := tryUSDateP_none orig cs h4 m d y hy
              rw [hv1, hv2, hv3] at this
              exact absurd this (by simp)

theorem parseDateCore_cases (orig : String) (cs : List Char) :
    parseDateCore orig cs = blankDateInfo orig ∨ (parseDateCore orig cs).isValid = true := by
  unfold parseDateCore
  cases h1 : tryYearOnlyP orig cs with
  | some r => exact Or.inr (tryYearOnlyP_some orig cs r h1).1
  | none =>
    cases h2 : tryYearMonthP orig cs with
    | some r => exact Or.inr (tryYearMonthP_some orig cs r h2).1
    | none =>
      cases h3 : tryISODateP orig cs with
      | some r => exact Or.inr (tryISODateP_some orig cs r h3).1
      | none =>
        cases h4 : tryUSDateP orig cs with
        | some r => exact Or.inr (tryUSDateP_some orig cs r h4).1
        | none => exact Or.inl rfl

theorem parseDate_eq_core (str : String) (h0 : ¬ str = "") (h1 : ¬ trimJS str = "") :
    parseDate (some str) = parseDateCore str (trimJS str).data := by
  simp only [parseDate]
  rw [if_neg h0, if_neg h1]

theorem parseDate_eq_blank (str : String) (h0 : ¬ str = "") (h1 : trimJS str = "") :
    parseDate (some str) = blankDateInfo str := by
  simp only [parseDate]
  rw [if_neg h0, if_pos h1]

theorem parseDate_isValid_iff (s : Option String) :
    (parseDate s).isValid = true ↔ ValidDateInput s := by
  cases s with
  | none =>
    constructor
    · intro h
      exact absurd h (by decide)
    · rintro ⟨str, hstr, -⟩
      exact Option.noConfusion hstr
  | some str =>
    by_cases h0 : str = ""
    · subst h0
      constructor
      · intro h
        exact absurd h (by decide)
      · rintro ⟨str', hs, hd⟩
        cases Option.some.inj hs
        rcases hd with ⟨y, hy, -⟩ | ⟨y, m, hy, -⟩ | ⟨y, m, d, hy, -⟩ | ⟨m, d, y, hy, -⟩ <;>
          rw [show (trimJS "").data = [] from rfl] at hy <;>
          first
            | (rw [show matchYearOnly ([] : List Char) = none from rfl] at hy;
                exact Option.noConfusion hy)
            | (rw [show matchYearMonth ([] : List Char) = none from rfl] at hy;
                exact Option.noConfusion hy)
            | (rw [show matchISODate ([] : List Char) = none from rfl] at hy;
                exact Option.noConfusion hy)
            | (rw [show matchUSDate ([] : List Char) = none from rfl] at hy;
                exact Option.noConfusion hy)
    · by_cases h1 : trimJS str = ""
      · rw [parseDate_eq_blank str h0 h1]
        constructor
        · intro h
          simp [blankDateInfo] at h
        · rintro ⟨str', hs, hd⟩
          cases Option.some.inj hs
          have hdata : (trimJS str).data = [] := by rw [h1]
          rcases hd with ⟨y, hy, -⟩ | ⟨y, m, hy, -⟩ | ⟨y, m, d, hy, -⟩ | ⟨m, d, y, hy, -⟩ <;>
            rw [hdata] at hy <;>
            first
              | (rw [show matchYearOnly ([] : List Char) = none from rfl] at hy;
                  exact Option.noConfusion hy)
              | (rw [show matchYearMonth ([] : List Char) = none from rfl] at hy;
                  exact Option.noConfusion hy)
              | (rw [show matchISODate ([] : List Char) = none from rfl] at hy;
                  exact Option.noConfusion hy)
              | (rw [show matchUSDate ([] : List Char) = none from rfl] at hy;
                  exact Option.noConfusion hy)
      · rw [parseDate_eq_core str h0 h1, parseDateCore_isValid]
        unfold ValidDateInput
        constructor
        · intro hd
          refine ⟨str, rfl, ?_⟩
          rcases hd with ⟨y, hy, hv⟩ | ⟨y, m, hy, hv1, hv2⟩ |
            ⟨y, m, d, hy, hv1, hv2, hv3⟩ | ⟨m, d, y, hy, hv1, hv2, hv3⟩
          · have hb := (isValidYear_iff y).mp hv
            exact Or.inl ⟨y, hy, hb.1, hb.2⟩
          · have hb1 := (isValidYear_iff y).mp hv1
            have hb2 := (isValidMonth_iff m).mp hv2
            exact Or.inr (Or.inl ⟨y, m, hy, hb1.1, hb1.2, hb2.1, hb2.2⟩)
          · have hb1 := (isValidYear_iff y).mp hv1
            have hb2 := (isValidMonth_iff m).mp hv2
            exact Or.inr (Or.inr (Or.inl ⟨y, m, d, hy, hb1.1, hb1.2, hb2.1, hb2.2, hv3⟩))
          · have hb1 := (isValidYear_iff y).mp hv1
            have hb2 := (isValidMonth_iff m).mp hv2
            exact Or.inr (Or.inr (Or.inr ⟨m, d, y, hy, hb1.1, hb1.2, hb2.1, hb2.2, hv3⟩))
        · rintro ⟨str', hs, hd⟩
          cases Option.some.inj hs
          rcases hd with ⟨y, hy, hb1, hb2⟩ | ⟨y, m, hy, hb1, hb2, hb3, hb4⟩ |
            ⟨y, m, d, hy, hb1, hb2, hb3, hb4, hv3⟩ | ⟨m, d, y, hy, hb1, hb2, hb3, hb4, hv3⟩
          · exact Or.inl ⟨y, hy, (isValidYear_iff y).mpr ⟨hb1, hb2⟩⟩
          · exact Or.inr (Or.inl ⟨y, m, hy, (isValidYear_iff y).mpr ⟨hb1, hb2⟩,
              (isValidMonth_iff m).mpr ⟨hb3, hb4⟩⟩)
          · exact Or.inr (Or.inr (Or.inl ⟨y, m, d, hy, (isValidYear_iff y).mpr ⟨hb1, hb2⟩,
              (isValidMonth_iff m).mpr ⟨hb3, hb4⟩, hv3⟩))
          · exact Or.inr (Or.inr (Or.inr ⟨m, d, y, hy, (isValidYear_iff y).mpr ⟨hb1, hb2⟩,
              (isValidMonth_iff m).mpr ⟨hb3, hb4⟩, hv3⟩))

theorem parseDate_invalid_shape (s : Option String) :
    parseDate s = blankDateInfo (s.getD "") ∨ (parseDate s).isValid = true := by
  cases s with
  | none => exact Or.inl rfl
  | some str =>
    by_cases h0 : str = ""
    · subst h0
      exact Or.inl (by decide)
    · by_cases h1 : trimJS str = ""
      · exact Or.inl (parseDate_eq_blank str h0 h1)
      · rw [parseDate_eq_core str h0 h1]
        rcases parseDateCore_cases str (trimJS str).data with h | h
        · exact Or.inl h
        · exact Or.inr h

/-- C9: parseDate is total over null, undefined and arbitrary strings; the
result is valid exactly when the trimmed input matches one of the year-only,
year-month, ISO or US forms with in-range components (February 29 accepted
exactly in leap years), and every other input yields an invalid result with
unknown precision and null year, month and day; the EU-style date whose
pattern is defined but never consulted parses as invalid. -/
theorem claimC9 :
    (∀ s : Option String,
      ((parseDate s).isValid = true ↔ ValidDateInput s) ∧
      ((parseDate s).isValid = false →
        (parseDate s).precision = DatePrecision.unknown ∧ (parseDate s).year = none ∧
        (parseDate s).month = none ∧ (parseDate s).day = none)) ∧
    parseDate (some "15.03.1995") = blankDateInfo "15.03.1995" ∧
    (∀ y, isValidDay 29 2 y = true ↔ isLeapYear y = true) := by
  refine ⟨?_, by decide, ?_⟩
  · intro s
    refine ⟨parseDate_isValid_iff s, ?_⟩
    intro hinv
    rcases parseDate_invalid_shape s with hb | hv
    · rw [hb]
      exact ⟨rfl, rfl, rfl, rfl⟩
    · rw [hinv] at hv
      exact absurd hv (by simp)
  · intro y
    cases hl : isLeapYear y <;>
      simp [isValidDay, hl, daysInMonthArr]

theorem claimC9_witness :
    ((parseDate (some "1995-03-15")).isValid = true ↔ ValidDateInput (some "1995-03-15")) ∧
    (parseDate (some "not a date")).precision = DatePrecision.unknown :=
  ⟨(claimC9.1 (some "1995-03-15")).1,
   ((claimC9.1 (some "not a date")).2 (by decide)).1⟩

theorem decDigit_isDigit (k : Nat) : isDigitChar (decDigit k) = true := by
  unfold decDigit
  have h : k % 10 < 10 := Nat.mod_lt _ (by omega)
  set j := k % 10 with hj
  interval_cases j <;> decide

theorem decDigit_notSpace (k : Nat) : isSpaceJS (decDigit k) = false := by
  unfold decDigit
  have h : k % 10 < 10 := Nat.mod_lt _ (by omega)
  set j := k % 10 with hj
  interval_cases j <;> decide

theorem decDigit_val (k : Nat) : (decDigit k).toNat - 48 = k % 10 := by
  unfold decDigit
  have h : k % 10 < 10 := Nat.mod_lt _ (by omega)
  set j := k % 10 with hj
  interval_cases j <;> decide

theorem natDigitsAux_fuel : ∀ (f1 f2 n : Nat), n < f1 → n < f2 →
    natDigitsAux f1 n = natDigitsAux f2 n := by
  intro f1
  induction f1 with
  | zero => intro f2 n h1 _; omega
  | succ a ih =>
    intro f2 n h1 h2
    cases f2 with
    | zero => omega
    | succ b =>
      simp only [natDigitsAux]
      by_cases hn : n < 10
      · simp [hn]
      · simp only [hn, if_false]
        have hdiv : n / 10 < n := Nat.div_lt_self (by omega) (by omega)
        rw [ih b (n / 10) (by omega) (by omega)]

theorem natDigits_base (n : Nat) (h : n < 10) : natDigits n = [decDigit n] := by
  simp [natDigits, natDigitsAux, h]

theorem natDigits_step (n : Nat) (h : 10 ≤ n) :
    natDigits n = natDigits (n / 10) ++ [decDigit (n % 10)] := by
  unfold natDigits
  conv =>
    lhs
    rw [show n + 1 = Nat.succ n from rfl]
  simp only [natDigitsAux]
  have hn : ¬ n < 10 := by omega
  simp only [hn, if_false]
  have hdiv : n / 10 < n := Nat.div_lt_self (by omega) (by omega)
  rw [natDigitsAux_fuel n (n / 10 + 1) (n / 10) (by omega) (by omega)]
  congr 1

theorem natDigits_chars (n : Nat) :
    ∀ c ∈ natDigits n, isDigitChar c = true ∧ isSpaceJS c = false := by
  induction n using Nat.strong_induction_on with
  | _ n ih =>
    by_cases h : n < 10
    · rw [natDigits_base n h]
      intro c hc
      rcases List.mem_singleton.mp hc with rfl
      exact ⟨decDigit_isDigit n, decDigit_notSpace n⟩
    · rw [natDigits_step n (by omega)]
      intro c hc
      rcases List.mem_append.mp hc with h1 | h1
      · exact ih (n / 10) (Nat.div_lt_self (by omega) (by omega)) c h1
      · rcases List.mem_singleton.mp h1 with rfl
        exact ⟨decDigit_isDigit _, decDigit_notSpace _⟩

theorem natDigits_ne_nil (n : Nat) : natDigits n ≠ [] := by
  by_cases h : n < 10
  · rw [natDigits_base n h]; simp
  · rw [natDigits_step n (by omega)]; simp

theorem parseNatDigits_append_one (l : List Char) (c : Char) :
    parseNatDigits (l ++ [c]) = parseNatDigits l * 10 + (c.toNat - 48) := by
  unfold parseNatDigits
  rw [List.foldl_append]
  rfl

theorem parseNatDigits_natDigits (n : Nat) : parseNatDigits (natDigits n) = n := by
  induction n using Nat.strong_induction_on with
  | _ n ih =>
    by_cases h : n < 10
    · rw [natDigits_base n h]
      have : parseNatDigits [decDigit n] = (decDigit n).toNat - 48 := by
        unfold parseNatDigits
        simp
      rw [this, decDigit_val]
      omega
    · rw [natDigits_step n (by omega), parseNatDigits_append_one,
        ih (n / 10) (Nat.div_lt_self (by omega) (by omega)), decDigit_val]
      omega

theorem natDigits_len1 (n : Nat) (h : n < 10) : (natDigits n).length = 1 := by
  rw [natDigits_base n h]
  rfl

theorem natDigits_len2 (n : Nat) (h1 : 10 ≤ n) (h2 : n ≤ 99) :
    (natDigits n).length = 2 := by
  rw [natDigits_step n h1, List.length_append, natDigits_len1 (n / 10) (by omega)]
  rfl

theorem natDigits_len4 (n : Nat) (h1 : 1000 ≤ n) (h2 : n ≤ 9999) :
    (natDigits n).length = 4 := by
  rw [natDigits_step n (by omega), List.length_append,
    natDigits_step (n / 10) (by omega), List.length_append,
    natDigits_len2 (n / 10 / 10) (by omega) (by omega)]
  rfl

theorem takeWhile_all {p : Char → Bool} :
    ∀ l : List Char, (∀ c ∈ l, p c = true) → List.takeWhile p l = l := by
  intro l
  induction l with
  | nil => intro _; rfl
  | cons a r ih =>
    intro h
    rw [List.takeWhile_cons, h a (by simp)]
    simp [ih (fun c hc => h c (by simp [hc]))]

theorem dropWhile_all {p : Char → Bool} :
    ∀ l : List Char, (∀ c ∈ l, p c = true) → List.dropWhile p l = [] := by
  intro l
  induction l with
  | nil => intro _; rfl
  | cons a r ih =>
    intro h
    rw [List.dropWhile_cons, h a (by simp)]
    simp [ih (fun c hc => h c (by simp [hc]))]

theorem dropWhile_no {p : Char → Bool} :
    ∀ l : List Char, (∀ c ∈ l, p c = false) → List.dropWhile p l = l := by
  intro l
  induction l with
  | nil => intro _; rfl
  | cons a r ih =>
    intro h
    rw [List.dropWhile_cons, h a (by simp)]
    simp

theorem takeWhile_app {p : Char → Bool} (l r : List Char)
    (h : ∀ c ∈ l, p c = true) :
    List.takeWhile p (l ++ r) = l ++ List.takeWhile p r := by
  induction l with
  | nil => rfl
  | cons a t ih =>
    rw [List.cons_append, List.takeWhile_cons, h a (by simp)]
    simp only [if_true]
    rw [ih (fun c hc => h c (by simp [hc]))]
    rfl

theorem dropWhile_app {p : Char → Bool} (l r : List Char)
    (h : ∀ c ∈ l, p c = true) :
    List.dropWhile p (l ++ r) = List.dropWhile p r := by
  induction l with
  | nil => rfl
  | cons a t ih =>
    rw [List.cons_append, List.dropWhile_cons, h a (by simp)]
    simp only [if_true]
    exact ih (fun c hc => h c (by simp [hc]))

theorem trimList_no (cs : List Char) (h : ∀ c ∈ cs, isSpaceJS c = false) :
    trimList cs = cs := by
  unfold trimList
  rw [dropWhile_no cs h]
  rw [dropWhile_no cs.reverse (fun c hc => h c (List.mem_reverse.mp hc))]
  exact List.reverse_reverse cs

theorem trimJS_no (s : String) (h : ∀ c ∈ s.data, isSpaceJS c = false) :
    trimJS s = s := by
  unfold trimJS
  rw [trimList_no s.data h]

theorem padTwo_data (m : Nat) :
    (padTwo m).data = if m < 10 then '0' :: natDigits m else natDigits m := by
  unfold padTwo
  by_cases h : m < 10 <;> simp [h, natToString]

theorem padTwo_chars (m : Nat) :
    ∀ c ∈ (padTwo m).data, isDigitChar c = true ∧ isSpaceJS c = false := by
  rw [padTwo_data]
  by_cases h : m < 10 <;> simp only [h, if_true, if_false]
  · intro c hc
    rcases List.mem_cons.mp hc with rfl | hc
    · exact ⟨by decide, by decide⟩
    · exact natDigits_chars m c hc
  · exact natDigits_chars m

theorem padTwo_len (m : Nat) (h : m ≤ 99) : (padTwo m).data.length = 2 := by
  rw [padTwo_data]
  by_cases h10 : m < 10
  · simp only [h10, if_true, List.length_cons]
    rw [natDigits_len1 m h10]
  · simp only [h10, if_false]
    exact natDigits_len2 m (by omega) h

theorem padTwo_val (m : Nat) : parseNatDigits (padTwo m).data = m := by
  rw [padTwo_data]
  by_cases h : m < 10
  · simp only [h, if_true]
    rw [natDigits_base m h]
    have he : parseNatDigits ['0', decDigit m] =
        (0 * 10 + ('0'.toNat - 48)) * 10 + ((decDigit m).toNat - 48) := rfl
    rw [he]
    have h0 : '0'.toNat - 48 = 0 := by decide
    rw [h0, decDigit_val]
    omega
  · simp only [h, if_false]
    exact parseNatDigits_natDigits m

theorem dropWhile_stop {p : Char → Bool} (l r : List Char) (hne : l ≠ [])
    (h : ∀ c ∈ l, p c = false) : List.dropWhile p (l ++ r) = l ++ r := by
  cases l with
  | nil => exact absurd rfl hne
  | cons a t =>
    rw [List.cons_append, List.dropWhile_cons, h a (by simp)]
    simp

theorem digitSpan_eq (cs ds r : List Char) (hcs : cs = ds ++ r) (hne : ds ≠ [])
    (hd : ∀ c ∈ ds, isDigitChar c = true ∧ isSpaceJS c = false)
    (hr : r = [] ∨ ∃ c0 r2, r = c0 :: r2 ∧ isDigitChar c0 = false) :
    digitSpan cs = (ds, r) := by
  subst hcs
  unfold digitSpan
  rw [dropWhile_stop ds r hne (fun c hc => (hd c hc).2)]
  rcases hr with rfl | ⟨c0, r2, rfl, hc0⟩
  · rw [List.append_nil, takeWhile_all _ (fun c hc => (hd c hc).1),
      dropWhile_all _ (fun c hc => (hd c hc).1)]
  · rw [takeWhile_app _ _ (fun c hc => (hd c hc).1),
      dropWhile_app _ _ (fun c hc => (hd c hc).1)]
    rw [List.takeWhile_cons, hc0, List.dropWhile_cons, hc0]
    simp

theorem digitSpanAt_eq (cs ds r : List Char) (hcs : cs = ds ++ r)
    (hd : ∀ c ∈ ds, isDigitChar c = true)
    (hr : r = [] ∨ ∃ c0 r2, r = c0 :: r2 ∧ isDigitChar c0 = false) :
    digitSpanAt cs = (ds, r) := by
  subst hcs
  unfold digitSpanAt
  rcases hr with rfl | ⟨c0, r2, rfl, hc0⟩
  · rw [List.append_nil, takeWhile_all _ hd, dropWhile_all _ hd]
  · rw [takeWhile_app _ _ hd, dropWhile_app _ _ hd]
    rw [List.takeWhile_cons, hc0, List.dropWhile_cons, hc0]
    simp

theorem matchYearOnly_digits (y : Nat) (h1 : 1000 ≤ y) (h2 : y ≤ 9999) :
    matchYearOnly (natDigits y) = some y := by
  unfold matchYearOnly
  rw [digitSpan_eq (natDigits y) (natDigits y) [] (by simp) (natDigits_ne_nil y)
    (natDigits_chars y) (Or.inl rfl)]
  rw [natDigits_len4 y h1 h2]
  simp [parseNatDigits_natDigits]

theorem matchYearOnly_sep (ds rest : List Char) (c0 : Char) (hne : ds ≠ [])
    (hd : ∀ c ∈ ds, isDigitChar c = true ∧ isSpaceJS c = false)
    (hc0d : isDigitChar c0 = false) (hc0s : isSpaceJS c0 = false) :
    matchYearOnly (ds ++ c0 :: rest) = none := by
  unfold matchYearOnly
  rw [digitSpan_eq (ds ++ c0 :: rest) ds (c0 :: rest) rfl hne hd
    (Or.inr ⟨c0, rest, rfl, hc0d⟩)]
  simp [List.all_cons, hc0s]

theorem matchYearMonth_pair (y m : Nat) (h1 : 1000 ≤ y) (h2 : y ≤ 9999) (hm : m ≤ 99) :
    matchYearMonth (natDigits y ++ '-' :: (padTwo m).data) = some (y, m) := by
  unfold matchYearMonth
  rw [digitSpan_eq (natDigits y ++ '-' :: (padTwo m).data) (natDigits y)
    ('-' :: (padTwo m).data) rfl (natDigits_ne_nil y) (natDigits_chars y)
    (Or.inr ⟨'-', (padTwo m).data, rfl, by decide⟩)]
  simp only []
  rw [digitSpanAt_eq (padTwo m).data (padTwo m).data [] (by simp)
    (fun c hc => (padTwo_chars m c hc).1) (Or.inl rfl)]
  rw [natDigits_len4 y h1 h2, padTwo_len m hm]
  simp [parseNatDigits_natDigits, padTwo_val]

theorem matchYearMonth_trip (y m d : Nat) (h1 : 1000 ≤ y) (h2 : y ≤ 9999) :
    matchYearMonth
      (natDigits y ++ '-' :: ((padTwo m).data ++ '-' :: (padTwo d).data)) = none := by
  unfold matchYearMonth
  rw [digitSpan_eq (natDigits y ++ '-' :: ((padTwo m).data ++ '-' :: (padTwo d).data))
    (natDigits y) ('-' :: ((padTwo m).data ++ '-' :: (padTwo d).data)) rfl
    (natDigits_ne_nil y) (natDigits_chars y)
    (Or.inr ⟨'-', (padTwo m).data ++ '-' :: (padTwo d).data, rfl, by decide⟩)]
  simp only []
  rw [digitSpanAt_eq ((padTwo m).data ++ '-' :: (padTwo d).data) (padTwo m).data
    ('-' :: (padTwo d).data) rfl (fun c hc => (padTwo_chars m c hc).1)
    (Or.inr ⟨'-', (padTwo d).data, rfl, by decide⟩)]
  have hsp : isSpaceJS '-' = false := by decide
  simp [List.all_cons, hsp]

theorem matchISODate_trip (y m d : Nat) (h1 : 1000 ≤ y) (h2 : y ≤ 9999)
    (hm : m ≤ 99) (hdd : d ≤ 99) :
    matchISODate (natDigits y ++ '-' :: ((padTwo m).data ++ '-' :: (padTwo d).data)) =
      some (y, m, d) := by
  unfold matchISODate
  rw [digitSpan_eq (natDigits y ++ '-' :: ((padTwo m).data ++ '-' :: (padTwo d).data))
    (natDigits y) ('-' :: ((padTwo m).data ++ '-' :: (padTwo d).data)) rfl
    (natDigits_ne_nil y) (natDigits_chars y)
    (Or.inr ⟨'-', (padTwo m).data ++ '-' :: (padTwo d).data, rfl, by decide⟩)]
  simp only []
  rw [digitSpanAt_eq ((padTwo m).data ++ '-' :: (padTwo d).data) (padTwo m).data
    ('-' :: (padTwo d).data) rfl (fun c hc => (padTwo_chars m c hc).1)
    (Or.inr ⟨'-', (padTwo d).data, rfl, by decide⟩)]
  simp only []
  rw [digitSpanAt_eq (padTwo d).data (padTwo d).data [] (by simp)
    (fun c hc => (padTwo_chars d c hc).1) (Or.inl rfl)]
  rw [natDigits_len4 y h1 h2, padTwo_len m hm, padTwo_len d hdd]
  simp [parseNatDigits_natDigits, padTwo_val]

theorem parseDateCore_eq1 (orig : String) (cs : List Char) (r : DateInfo)
    (h : tryYearOnlyP orig cs = some r) : parseDateCore orig cs = r := by
  unfold parseDateCore
  rw [h]

theorem parseDateCore_eq2 (orig : String) (cs : List Char) (r : DateInfo)
    (h1 : tryYearOnlyP orig cs = none) (h2 : tryYearMonthP orig cs = some r) :
    parseDateCore orig cs = r := by
  unfold parseDateCore
  rw [h1, h2]

theorem parseDateCore_eq3 (orig : String) (cs : List Char) (r : DateInfo)
    (h1 : tryYearOnlyP orig cs = none) (h2 : tryYearMonthP orig cs = none)
    (h3 : tryISODateP orig cs = some r) : parseDateCore orig cs = r := by
  unfold parseDateCore
  rw [h1, h2, h3]

theorem str_ne_empty (s : String) (h : s.data ≠ []) : ¬ s = "" := by
  intro e
  rw [e] at h
  exact h rfl

theorem monthStr_data (y m : Nat) :
    (natToString y ++ "-" ++ padTwo m).data = natDigits y ++ '-' :: (padTwo m).data := by
  rw [String.data_append, String.data_append]
  rw [show (natToString y).data = natDigits y from rfl]
  rw [show ("-" : String).data = ['-'] from rfl]
  rw [List.append_assoc]
  rfl

theorem dayStr_data (y m d : Nat) :
    (natToString y ++ "-" ++ padTwo m ++ "-" ++ padTwo d).data =
      natDigits y ++ '-' :: ((padTwo m).data ++ '-' :: (padTwo d).data) := by
  rw [String.data_append, String.data_append, String.data_append, String.data_append]
  rw [show (natToString y).data = natDigits y from rfl]
  rw [show ("-" : String).data = ['-'] from rfl]
  simp [List.append_assoc]

theorem parse_year_digits (y : Nat) (hy1 : 1000 ≤ y) (hy2 : y ≤ 9999) :
    parseDate (some (natToString y)) =
      { original := natToString y, precision := DatePrecision.year,
        year := some y, month := none, day := none, isValid := true } := by
  have hvy : isValidYear y = true := (isValidYear_iff y).mpr ⟨by omega, hy2⟩
  have hdata : (natToString y).data = natDigits y := rfl
  have hne : (natToString y).data ≠ [] := by rw [hdata]; exact natDigits_ne_nil y
  have h0 : ¬ natToString y = "" := str_ne_empty _ hne
  have htr : trimJS (natToString y) = natToString y := by
    apply trimJS_no
    rw [hdata]
    exact fun c hc => (natDigits_chars y c hc).2
  have h1 : ¬ trimJS (natToString y) = "" := by rw [htr]; exact h0
  rw [parseDate_eq_core _ h0 h1, htr]
  apply parseDateCore_eq1
  unfold tryYearOnlyP
  rw [hdata, matchYearOnly_digits y hy1 hy2]
  simp [hvy, blankDateInfo]

theorem parse_month_digits (y mv : Nat) (hy1 : 1000 ≤ y) (hy2 : y ≤ 9999)
    (hm1 : 1 ≤ mv) (hm2 : mv ≤ 12) :
    parseDate (some (natToString y ++ "-" ++ padTwo mv)) =
      { original := natToString y ++ "-" ++ padTwo mv, precision := DatePrecision.month,
        year := some y, month := some mv, day := none, isValid := true } := by
  have hvy : isValidYear y = true := (isValidYear_iff y).mpr ⟨by omega, hy2⟩
  have hvm : isValidMonth mv = true := (isValidMonth_iff mv).mpr ⟨hm1, hm2⟩
  set s := natToString y ++ "-" ++ padTwo mv with hs
  have hdata : s.data = natDigits y ++ '-' :: (padTwo mv).data := monthStr_data y mv
  have hne : s.data ≠ [] := by
    rw [hdata]
    simp [natDigits_ne_nil y]
  have h0 : ¬ s = "" := str_ne_empty _ hne
  have htr : trimJS s = s := by
    apply trimJS_no
    rw [hdata]
    intro c hc
    rcases List.mem_append.mp hc with h | h
    · exact (natDigits_chars y c h).2
    · rcases List.mem_cons.mp h with rfl | h
      · decide
      · exact (padTwo_chars mv c h).2
  have h1 : ¬ trimJS s = "" := by rw [htr]; exact h0
  rw [parseDate_eq_core _ h0 h1, htr]
  have hno : tryYearOnlyP s s.data = none := by
    unfold tryYearOnlyP
    rw [hdata, matchYearOnly_sep (natDigits y) ((padTwo mv).data) '-'
      (natDigits_ne_nil y) (natDigits_chars y) (by decide) (by decide)]
  apply parseDateCore_eq2 _ _ _ hno
  unfold tryYearMonthP
  rw [hdata, matchYearMonth_pair y mv hy1 hy2 (by omega)]
  simp [hvy, hvm, blankDateInfo]

theorem parse_day_digits (y mv dv : Nat) (hy1 : 1000 ≤ y) (hy2 : y ≤ 9999)
    (hm1 : 1 ≤ mv) (hm2 : mv ≤ 12) (hdv : isValidDay dv mv y = true) :
    parseDate (some (natToString y ++ "-" ++ padTwo mv ++ "-" ++ padTwo dv)) =
      { original := natToString y ++ "-" ++ padTwo mv ++ "-" ++ padTwo dv,
        precision := DatePrecision.day,
        year := some y, month := some mv, day := some dv, isValid := true } := by
  have hvy : isValidYear y = true := (isValidYear_iff y).mpr ⟨by omega, hy2⟩
  have hvm : isValidMonth mv = true := (isValidMonth_iff mv).mpr ⟨hm1, hm2⟩
  have hdle : dv ≤ 31 := by
    unfold isValidDay at hdv
    by_cases hd1 : dv < 1
    · rw [if_pos hd1] at hdv
      exact absurd hdv (by simp)
    · rw [if_neg hd1] at hdv
      by_cases hfeb : (decide (mv = 2) && isLeapYear y) = true
      · rw [if_pos hfeb] at hdv
        simp at hdv
        omega
      · rw [if_neg hfeb] at hdv
        simp at hdv
        interval_cases mv <;> simp [daysInMonthArr] at hdv <;> omega
  set s := natToString y ++ "-" ++ padTwo mv ++ "-" ++ padTwo dv with hs
  have hdata : s.data = natDigits y ++ '-' :: ((padTwo mv).data ++ '-' :: (padTwo dv).data) :=
    dayStr_data y mv dv
  have hne : s.data ≠ [] := by
    rw [hdata]
    simp [natDigits_ne_nil y]
  have h0 : ¬ s = "" := str_ne_empty _ hne
  have htr : trimJS s = s := by
    apply trimJS_no
    rw [hdata]
    intro c hc
    rcases List.mem_append.mp hc with h | h
    · exact (natDigits_chars y c h).2
    · rcases List.mem_cons.mp h with rfl | h
      · decide
      · rcases List.mem_append.mp h with h | h
        · exact (padTwo_chars mv c h).2
        · rcases List.mem_cons.mp h with rfl | h
          · decide
          · exact (padTwo_chars dv c h).2
  have h1 : ¬ trimJS s = "" := by rw [htr]; exact h0
  rw [parseDate_eq_core _ h0 h1, htr]
  have hno1 : tryYearOnlyP s s.data = none := by
    unfold tryYearOnlyP
    rw [hdata, matchYearOnly_sep (natDigits y) ((padTwo mv).data ++ '-' :: (padTwo dv).data)
      '-' (natDigits_ne_nil y) (natDigits_chars y) (by decide) (by decide)]
  have hno2 : tryYearMonthP s s.data = none := by
    unfold tryYearMonthP
    rw [hdata, matchYearMonth_trip y mv dv hy1 hy2]
  apply parseDateCore_eq3 _ _ _ hno1 hno2
  unfold tryISODateP
  rw [hdata, matchISODate_trip y mv dv hy1 hy2 (by omega) (by omega)]
  simp [hvy, hvm, hdv, blankDateInfo]

/-- C10 (amended): createDateInfo and parseDate round-trip for four-digit
years: for every year in 1000..9999, optional month in 1..12 and optional
day valid for that month and year, parsing the created original string
reproduces the DateInfo exactly. -/
theorem claimC10 (y : Nat) (m d : Option Nat)
    (hy1 : 1000 ≤ y) (hy2 : y ≤ 9999)
    (hm : ∀ mv, m = some mv → 1 ≤ mv ∧ mv ≤ 12)
    (hd : ∀ mv dv, m = some mv → d = some dv → isValidDay dv mv y = true) :
    parseDate (some (createDateInfo y m d).original) = createDateInfo y m d := by
  have hvy : isValidYear y = true := (isValidYear_iff y).mpr ⟨by omega, hy2⟩
  cases m with
  | none =>
    have hC : createDateInfo y none d =
        { original := natToString y, precision := DatePrecision.year,
          year := some y, month := none, day := none, isValid := true } := by
      simp [createDateInfo, hvy]
    rw [hC]
    exact parse_year_digits y hy1 hy2
  | some mv =>
    obtain ⟨hm1, hm2⟩ := hm mv rfl
    have hvm : isValidMonth mv = true := (isValidMonth_iff mv).mpr ⟨hm1, hm2⟩
    cases d with
    | none =>
      have hC : createDateInfo y (some mv) none =
          { original := natToString y ++ "-" ++ padTwo mv,
            precision := DatePrecision.month,
            year := some y, month := some mv, day := none, isValid := true } := by
        simp [createDateInfo, hvy, hvm]
      rw [hC]
      exact parse_month_digits y mv hy1 hy2 hm1 hm2
    | some dv =>
      have hvd : isValidDay dv mv y = true := hd mv dv rfl rfl
      have hC : createDateInfo y (some mv) (some dv) =
          { original := natToString y ++ "-" ++ padTwo mv ++ "-" ++ padTwo dv,
            precision := DatePrecision.day,
            year := some y, month := some mv, day := some dv, isValid := true } := by
        simp [createDateInfo, hvy, hvm, hvd]
      rw [hC]
      exact parse_day_digits y mv dv hy1 hy2 hm1 hm2 hvd

/-- C10 counterexample: year 999 is within the claimed range 1..9999 and
createDateInfo accepts it, but its original string has three digits, which
parseDate rejects, so the round trip fails. -/
theorem claimC10_counterexample :
    1 ≤ 999 ∧ 999 ≤ 9999 ∧ (createDateInfo 999 none none).isValid = true ∧
    (parseDate (some (createDateInfo 999 none none).original)).isValid = false := by
  decide

theorem claimC10_witness :
    1000 ≤ 1995 ∧
    parseDate (some (createDateInfo 1995 (some 3) (some 15)).original) =
      createDateInfo 1995 (some 3) (some 15) :=
  ⟨by decide, claimC10 1995 (some 3) (some 15) (by decide) (by decide)
    (fun mv h => by cases h; exact ⟨by decide, by decide⟩)
    (fun mv dv h1 h2 => by cases h1; cases h2; decide)⟩
